import Mathlib

/-!
A verification development for a small log-processing toolchain:
a batch normalizer (`01_json_to_jsonl/app.py`) that flattens heterogeneous
JSON activity logs into per-user per-task JSONL buckets, a JSONL-to-CSV
exporter (`02_jsonl_to_csv/app.py`), and a read-only query API over the
JSONL corpus (`log_viewer/api/main.py`).  Python values are modelled by
`PyVal`, Python text by `List Char`, and the relevant functions of the
three programs are embedded as executable Lean definitions.
-/

namespace LogTool

/-- ASCII decimal digit test (the regex class `\d` on ASCII text). -/
def isDigitC (c : Char) : Bool := 48 ≤ c.toNat && c.toNat ≤ 57

/-- Whitespace test covering the characters Python strips and JSON skips
(space, tab, newline, carriage return). -/
def isWsC (c : Char) : Bool := c = ' ' || c = '\t' || c = '\n' || c = '\r'

/-- Python `str.strip()`: drop whitespace from both ends. -/
def pyStrip (l : List Char) : List Char :=
  ((l.dropWhile isWsC).reverse.dropWhile isWsC).reverse

/-- Split a character list at a separator character, keeping empty pieces
(one more piece than separators, like Python `str.split(sep)`). -/
def splitOnC (sep : Char) : List Char → List (List Char)
  | [] => [[]]
  | c :: rest =>
    if c = sep then [] :: splitOnC sep rest
    else
      match splitOnC sep rest with
      | [] => [[c]]
      | p :: ps => (c :: p) :: ps

/-- Numeric value of a decimal digit string, as Python `int()` computes it
(most significant digit first; leading zeros allowed). -/
def decVal (l : List Char) : Nat := l.foldl (fun a c => 10 * a + (c.toNat - 48)) 0

/-- The character of a decimal digit. -/
def digitC (d : Nat) : Char := Char.ofNat (48 + d)

/-- Decimal digit characters of `n`, most significant first; fuel-based so
that it evaluates inside the kernel. -/
def decCharsAux : Nat → Nat → List Char
  | 0, _ => []
  | f + 1, n => if n < 10 then [digitC n] else decCharsAux f (n / 10) ++ [digitC (n % 10)]

/-- Decimal digit characters of `n`; `decChars 0 = ['0']`, like `"%d" % 0`. -/
def decChars (n : Nat) : List Char := decCharsAux (n + 1) n

/-- Zero-pad a digit string on the left to width `w` (as in `"%03d"`). -/
def zpad (w : Nat) (l : List Char) : List Char := List.replicate (w - l.length) '0' ++ l

/-- The first maximal run of decimal digits in a string, which is what
`re.search(r"(\d+)", s)` captures; `none` when the string has no digit. -/
def firstDigitRun : List Char → Option (List Char)
  | [] => none
  | c :: cs => if isDigitC c then some (c :: cs.takeWhile isDigitC) else firstDigitRun cs

/-- Format `f"user_{n:03d}"` for a natural `n`. -/
def userTag (n : Nat) : String := String.mk (['u', 's', 'e', 'r', '_'] ++ zpad 3 (decChars n))

/-- Function `pad_user_id` (01_json_to_jsonl/app.py) on a string argument: the first
digit run in the text gives the number (0 when there is none), formatted
as `f"user_{n:03d}"`. -/
def pad_user_id (s : String) : String :=
  userTag (match firstDigitRun s.data with
    | some ds => decVal ds
    | none => 0)

/-! ### Python/JSON values

`PyVal` models the values that can appear in the logs: JSON scalars,
arrays and objects, plus Python `None`.  Numbers are modelled as integers
(the log corpus carries no floats the claims depend on).  Lists and
objects are mutual inductives so that every function over them is
structural and evaluates inside the kernel. -/

mutual
inductive PyVal : Type where
  | none : PyVal
  | bool : Bool → PyVal
  | int : Int → PyVal
  | str : String → PyVal
  | arr : PyList → PyVal
  | obj : PyObj → PyVal
inductive PyList : Type where
  | nil : PyList
  | cons : PyVal → PyList → PyList
inductive PyObj : Type where
  | nil : PyObj
  | cons : String → PyVal → PyObj → PyObj
end

/-- Python truthiness: `None`, `False`, `0`, `""`, `[]` and `` empty dict ``
are falsy, everything else truthy. -/
def pyTruthy : PyVal → Bool
  | .none => false
  | .bool b => b
  | .int n => !(n == 0)
  | .str s => !(s == "")
  | .arr .nil => false
  | .arr (.cons _ _) => true
  | .obj .nil => false
  | .obj (.cons _ _ _) => true

/-- Python `a or b`: `a` when truthy, otherwise `b` (even when `b` is falsy). -/
def orP (a b : PyVal) : PyVal := if pyTruthy a then a else b

/-- Lookup `d.get(k)` on a dict: the stored value, `None` when the key is absent. -/
def PyObj.get : PyObj → String → PyVal
  | .nil, _ => .none
  | .cons k v tl, k2 => if k = k2 then v else PyObj.get tl k2

/-- Function `to_int_or_none` (01_json_to_jsonl/app.py): ints pass through (Python
bools are ints), a stripped all-digit string parses, everything else is
`None`. -/
def to_int_or_none : PyVal → Option Int
  | .none => none
  | .bool b => some (if b then 1 else 0)
  | .int n => some n
  | .str s =>
    let t := pyStrip s.data
    if !t.isEmpty && t.all isDigitC then some (decVal t) else none
  | .arr _ => none
  | .obj _ => none

/-- An integer's decimal characters, sign included. -/
def intChars (n : Int) : List Char :=
  if n < 0 then '-' :: decChars n.natAbs else decChars n.toNat

/-- Format `"%03d" % n` for an integer: the sign counts toward the width. -/
def intPad3 (n : Int) : List Char :=
  if n < 0 then '-' :: zpad 2 (decChars n.natAbs) else zpad 3 (decChars n.toNat)

/-- Format `f"user_{n:03d}"` for an integer argument. -/
def userTagInt (n : Int) : String := String.mk (['u', 's', 'e', 'r', '_'] ++ intPad3 n)

/-- A string in quotes, as the simplified repr shows dict keys. -/
def quoteKey (k : String) : String := String.mk (Char.ofNat 39 :: k.data ++ [Char.ofNat 39])

mutual
/-- Python `str()` of a value.  Scalars are exact; containers use a
simplified repr (elements quoted with `Char.ofNat 39`, no escaping) —
`pad_user_id` only ever scans its output for digit runs. -/
def pyStr : PyVal → String
  | .none => "None"
  | .bool true => "True"
  | .bool false => "False"
  | .int n => String.mk (intChars n)
  | .str s => s
  | .arr l => "[" ++ pyStrList l ++ "]"
  | .obj o => "\x7b" ++ pyStrObj o ++ "\x7d"
def pyStrItem : PyVal → String
  | .str s => quoteKey s
  | v => pyStr v
def pyStrList : PyList → String
  | .nil => ""
  | .cons v .nil => pyStrItem v
  | .cons v tl => pyStrItem v ++ ", " ++ pyStrList tl
def pyStrObj : PyObj → String
  | .nil => ""
  | .cons k v .nil => quoteKey k ++ ": " ++ pyStrItem v
  | .cons k v tl => quoteKey k ++ ": " ++ pyStrItem v ++ ", " ++ pyStrObj tl
end

/-- Function `pad_user_id` as the normalizer applies it to an arbitrary value:
an int takes the `isinstance(user_id, int)` branch (a Python bool is an
int), anything else is scanned for a digit run through `str(user_id)`. -/
def pad_user_id_py : PyVal → String
  | .int n => userTagInt n
  | .bool b => userTagInt (if b then 1 else 0)
  | v => pad_user_id (pyStr v)

/-! ### The batch normalizer and partitioner (01_json_to_jsonl/app.py) -/

namespace Batch

/-- One normalized record: exactly the 12 unified-schema fields, each
possibly `None`. -/
structure Ev where
  ts : PyVal
  user_id : PyVal
  username : PyVal
  task : PyVal
  event : PyVal
  code : PyVal
  stdout : PyVal
  stderr : PyVal
  estimated_stage : PyVal
  next_stage : PyVal
  processing_structure : PyVal
  advice : PyVal

/-- Function `normalize_event` of the batch tool: prioritized key variants for each
unified field, path-derived fallbacks for user and task, `None` elsewhere. -/
def normalize_event (raw : PyObj) (fallback_user : Option String)
    (fallback_task : Option Int) : Ev :=
  let event_type0 := orP (raw.get "event") (orP (raw.get "type") (raw.get "event_type"))
  let event_type := match event_type0 with
    | .str s => PyVal.str (String.mk (pyStrip s.data))
    | v => v
  let fbU : PyVal := match fallback_user with
    | some u => .str u
    | none => .none
  let user_id := orP (raw.get "userId") (orP (raw.get "user_id") (orP (raw.get "user") fbU))
  let task_num0 := to_int_or_none (orP (raw.get "taskNumber")
    (orP (raw.get "task") (raw.get "task_id")))
  let task_num : Option Int := match task_num0 with
    | some n => some n
    | none => fallback_task
  { ts := orP (raw.get "timestamp") (orP (raw.get "ts")
      (orP (raw.get "time") (raw.get "occurred_at")))
    user_id := match user_id with
      | .none => .none
      | v => .str (pad_user_id_py v)
    username := orP (raw.get "username") (orP (raw.get "userName") (raw.get "name"))
    task := match task_num with
      | some n => .int n
      | none => .none
    event := event_type
    code := raw.get "code"
    stdout := raw.get "stdout"
    stderr := raw.get "stderr"
    estimated_stage := raw.get "estimated_stage"
    next_stage := raw.get "next_stage"
    processing_structure := raw.get "processing_structure"
    advice := raw.get "advice" }

/-- Pattern `^user_(\d+)$` on one path segment, capturing the number. -/
def matchUserSeg (s : String) : Option Nat :=
  match s.data with
  | 'u' :: 's' :: 'e' :: 'r' :: '_' :: ds =>
    if !ds.isEmpty && ds.all isDigitC then some (decVal ds) else none
  | _ => none

/-- Pattern `^task_(\d+)$` on one path segment, capturing the number. -/
def matchTaskSeg (s : String) : Option Nat :=
  match s.data with
  | 't' :: 'a' :: 's' :: 'k' :: '_' :: ds =>
    if !ds.isEmpty && ds.all isDigitC then some (decVal ds) else none
  | _ => none

/-- Function `discover_user_task_from_path`: scan the `/`-separated segments of the
path; the last segment matching each pattern wins.  The user number is
re-formatted as `f"user_{n:03d}"`. -/
def discover_user_task_from_path (path : String) : Option String × Option Int :=
  ((splitOnC '/' path.data).map String.mk).foldl
    (fun acc p =>
      ((match matchUserSeg p with
        | some n => some (userTag n)
        | none => acc.1),
       (match matchTaskSeg p with
        | some n => some (n : Int)
        | none => acc.2)))
    (none, none)

/-- The partitioning filter of `main`: a record is kept only when the
normalized `user_id` is truthy and `task` is not `None`. -/
def keep (ev : Ev) : Bool :=
  pyTruthy ev.user_id && (match ev.task with | .none => false | _ => true)

/-- The kept, normalized event stream of one input file `(path, records)`. -/
def fileEvents (p : String × List PyObj) : List Ev :=
  let fb := discover_user_task_from_path p.1
  (p.2.map (fun raw => normalize_event raw fb.1 fb.2)).filter keep

/-- All kept events of a run, in file order then record order: exactly the
stream appended into the `buckets` defaultdict. -/
def keptEvents (files : List (String × List PyObj)) : List Ev :=
  (files.map fileEvents).flatten

/-- The bucket key `(ev["user_id"], int(ev["task"]))` of a kept event. -/
def evKey (ev : Ev) : String × Int :=
  ((match ev.user_id with | .str s => s | _ => ""),
   (match ev.task with | .int n => n | _ => 0))

/-- The bucket of key `k`: the kept events with that key, in stream order
(appending to `buckets[(user, task)]` preserves encounter order). -/
def bucket (files : List (String × List PyObj)) (k : String × Int) : List Ev :=
  (keptEvents files).filter (fun ev => evKey ev = k)

/-- Bucket keys in first-appearance order (dict iteration order). -/
def bucketKeys (files : List (String × List PyObj)) : List (String × Int) :=
  ((keptEvents files).map evKey).foldl
    (fun acc k => if k ∈ acc then acc else acc ++ [k]) []

/-- Every event written to any output file: the buckets, flushed one
output file per key. -/
def writtenEvents (files : List (String × List PyObj)) : List Ev :=
  ((bucketKeys files).map (bucket files)).flatten

/-- The user-field chain of `normalize_event`, without the path fallback. -/
def fieldUser (raw : PyObj) : PyVal :=
  orP (raw.get "userId") (orP (raw.get "user_id") (raw.get "user"))

/-- The task-field chain of `normalize_event`, without the path fallback. -/
def fieldTask (raw : PyObj) : PyVal :=
  orP (raw.get "taskNumber") (orP (raw.get "task") (raw.get "task_id"))

/-- A user id is discoverable for `(raw, path)`: some user field is
truthy, or the path carries a `user_<digits>` segment. -/
def userDiscoverable (raw : PyObj) (p : String) : Prop :=
  pyTruthy (fieldUser raw) = true ∨ (discover_user_task_from_path p).1 ≠ none

/-- A task number is resolvable for `(raw, path)`: some task field
coerces to an int, or the path carries a `task_<digits>` segment. -/
def taskResolvable (raw : PyObj) (p : String) : Prop :=
  to_int_or_none (fieldTask raw) ≠ none ∨ (discover_user_task_from_path p).2 ≠ none

end Batch

/-! ### JSON text: `json.dumps` and `json.loads`

The printer follows `json.dumps(..., ensure_ascii=False)` with its default
separators `", "` and `": "`; the parser is fuel-based (fuel bounds the
number of parsed values) so that everything evaluates inside the kernel. -/

def lbrace : Char := Char.ofNat 123

def rbrace : Char := Char.ofNat 125

/-- Lowercase hexadecimal digit character. -/
def hexDigitC (d : Nat) : Char := if d < 10 then digitC d else Char.ofNat (87 + d)

/-- JSON-escape one character: the two mandatory escapes, the short control
escapes, `\u00XX` for other control characters, everything else verbatim
(`ensure_ascii=False`). -/
def escChar (c : Char) : List Char :=
  if c = '"' then ['\\', '"']
  else if c = '\\' then ['\\', '\\']
  else if c = '\n' then ['\\', 'n']
  else if c = '\r' then ['\\', 'r']
  else if c = '\t' then ['\\', 't']
  else if c.toNat = 8 then ['\\', 'b']
  else if c.toNat = 12 then ['\\', 'f']
  else if c.toNat < 32 then ['\\', 'u', '0', '0', hexDigitC (c.toNat / 16), hexDigitC (c.toNat % 16)]
  else [c]

/-- JSON-escape a string body. -/
def escStr (l : List Char) : List Char := l.foldr (fun c acc => escChar c ++ acc) []

/-- The `"key": ` part of an object member. -/
def keyPart (k : String) : List Char := '"' :: (escStr k.data ++ ['"', ':', ' '])

mutual
/-- Print `json.dumps` of a value, as characters. -/
def dumpsV : PyVal → List Char
  | .none => "null".data
  | .bool true => "true".data
  | .bool false => "false".data
  | .int n => intChars n
  | .str s => '"' :: (escStr s.data ++ ['"'])
  | .arr .nil => ['[', ']']
  | .arr (.cons v tl) => '[' :: (dumpsV v ++ dumpsElems tl ++ [']'])
  | .obj .nil => [lbrace, rbrace]
  | .obj (.cons k v tl) => lbrace :: (keyPart k ++ dumpsV v ++ dumpsMembers tl ++ [rbrace])
/-- Second and later array elements, each behind `", "`. -/
def dumpsElems : PyList → List Char
  | .nil => []
  | .cons v tl => ',' :: ' ' :: (dumpsV v ++ dumpsElems tl)
/-- Second and later object members, each behind `", "`. -/
def dumpsMembers : PyObj → List Char
  | .nil => []
  | .cons k v tl => ',' :: ' ' :: (keyPart k ++ dumpsV v ++ dumpsMembers tl)
end

/-- Print `json.dumps` of a value, as a string. -/
def dumps (v : PyVal) : String := String.mk (dumpsV v)

/-- JSON whitespace skipping. -/
def skipWs (l : List Char) : List Char := l.dropWhile isWsC

/-- The decoded form of a short escape: the three self-representing
characters pass through, the five control-character names decode. -/
def escDecode (e : Char) : Option Char :=
  if e = 'n' then some '\n'
  else if e = 't' then some '\t'
  else if e = 'r' then some '\r'
  else if e = 'b' then some (Char.ofNat 8)
  else if e = 'f' then some (Char.ofNat 12)
  else if e = '"' ∨ e = '\\' ∨ e = '/' then some e
  else none

/-- Hexadecimal digit value. -/
def hexVal (c : Char) : Option Nat :=
  if 48 ≤ c.toNat ∧ c.toNat ≤ 57 then some (c.toNat - 48)
  else if 97 ≤ c.toNat ∧ c.toNat ≤ 102 then some (c.toNat - 87)
  else if 65 ≤ c.toNat ∧ c.toNat ≤ 70 then some (c.toNat - 55)
  else none

mutual
/-- A string body after the opening quote: characters up to the closing
quote, decoding escapes.  Raw control characters are rejected
(`json.loads` strict mode). -/
def strBody : List Char → Option (List Char × List Char)
  | [] => none
  | c :: rest =>
    if c = '"' then some ([], rest)
    else if c = '\\' then strEsc rest
    else if c.toNat < 32 then none
    else
      match strBody rest with
      | some (s2, r2) => some (c :: s2, r2)
      | none => none
/-- The character after a backslash: a short escape or `uXXXX`. -/
def strEsc : List Char → Option (List Char × List Char)
  | [] => none
  | e :: rest2 =>
    if e = 'u' then strEscU rest2
    else
      match escDecode e with
      | some d =>
        match strBody rest2 with
        | some (s2, r2) => some (d :: s2, r2)
        | none => none
      | none => none
/-- Four hex digits after `\u` (the value must be a valid scalar
codepoint; surrogate-pair recombination is not modelled — the printer
never emits it). -/
def strEscU : List Char → Option (List Char × List Char)
  | h1 :: h2 :: h3 :: h4 :: r6 =>
    (match hexVal h1, hexVal h2, hexVal h3, hexVal h4 with
     | some a, some b, some c2, some d =>
       let n := ((a * 16 + b) * 16 + c2) * 16 + d
       if n < 55296 ∨ 57343 < n then
         match strBody r6 with
         | some (s2, r2) => some (Char.ofNat n :: s2, r2)
         | none => none
       else none
     | _, _, _, _ => none)
  | _ => none
end

/-- An integer literal: optional minus, then a greedy digit run. -/
def parseNumV : List Char → Option (PyVal × List Char)
  | [] => none
  | c :: rest =>
    if c = '-' then
      let ds := rest.takeWhile isDigitC
      if ds.isEmpty then none
      else some (.int (-(decVal ds : Int)), rest.dropWhile isDigitC)
    else
      let ds := (c :: rest).takeWhile isDigitC
      if ds.isEmpty then none
      else some (.int (decVal ds), (c :: rest).dropWhile isDigitC)

def hasKeyO : PyObj → String → Bool
  | .nil, _ => false
  | .cons k _ tl, k2 => k == k2 || hasKeyO tl k2

/-- Replace the value stored at an existing key, keeping its position. -/
def setKeyO : PyObj → String → PyVal → PyObj
  | .nil, _, _ => .nil
  | .cons k v tl, k2, v2 => if k = k2 then .cons k v2 tl else .cons k v (setKeyO tl k2 v2)

def appendO : PyObj → String → PyVal → PyObj
  | .nil, k, v => .cons k v .nil
  | .cons k0 v0 tl, k, v => .cons k0 v0 (appendO tl k v)

/-- Assignment `d[k] = v` on a dict: replace in place when present, append otherwise. -/
def upsertO (o : PyObj) (k : String) (v : PyVal) : PyObj :=
  if hasKeyO o k then setKeyO o k v else appendO o k v

def dedupObjAux : PyObj → PyObj → PyObj
  | acc, .nil => acc
  | acc, .cons k v tl => dedupObjAux (upsertO acc k v) tl

/-- Collapse a parsed member sequence the way successive `d[k] = v`
assignments build a Python dict (first position, last value wins). -/
def dedupObj (o : PyObj) : PyObj := dedupObjAux .nil o

mutual
/-- One JSON value (fuel bounds the number of nested parse steps). -/
def parseV : Nat → List Char → Option (PyVal × List Char)
  | 0, _ => none
  | f + 1, cs =>
    match skipWs cs with
    | [] => none
    | c :: r =>
      if c = '"' then (strBody r).map (fun p => (PyVal.str (String.mk p.1), p.2))
      else if c = '[' then
        match skipWs r with
        | c2 :: r2 =>
          if c2 = ']' then some (.arr .nil, r2)
          else (parseElemsV f (c2 :: r2)).map (fun p => (PyVal.arr p.1, p.2))
        | [] => none
      else if c = lbrace then
        match skipWs r with
        | c2 :: r2 =>
          if c2 = rbrace then some (.obj .nil, r2)
          else (parseMembersV f (c2 :: r2)).map (fun p => (PyVal.obj (dedupObj p.1), p.2))
        | [] => none
      else if c = '-' ∨ isDigitC c then parseNumV (c :: r)
      else if (c :: r).take 4 = "null".data then some (.none, (c :: r).drop 4)
      else if (c :: r).take 4 = "true".data then some (.bool true, (c :: r).drop 4)
      else if (c :: r).take 5 = "false".data then some (.bool false, (c :: r).drop 5)
      else none
/-- One or more comma-separated array elements up to `]`. -/
def parseElemsV : Nat → List Char → Option (PyList × List Char)
  | 0, _ => none
  | f + 1, cs => do
    let (v, r) ← parseV f cs
    match skipWs r with
    | c :: r2 =>
      if c = ',' then do
        let (tl, r3) ← parseElemsV f r2
        pure (PyList.cons v tl, r3)
      else if c = ']' then pure (PyList.cons v .nil, r2)
      else none
    | [] => none
/-- One or more comma-separated `"key": value` members up to the closing
brace. -/
def parseMembersV : Nat → List Char → Option (PyObj × List Char)
  | 0, _ => none
  | f + 1, cs =>
    match skipWs cs with
    | c :: r =>
      if c = '"' then do
        let (k, r1) ← strBody r
        match skipWs r1 with
        | c1 :: r2 =>
          if c1 = ':' then do
            let (v, r3) ← parseV f r2
            match skipWs r3 with
            | c2 :: r4 =>
              if c2 = ',' then do
                let (tl, r5) ← parseMembersV f r4
                pure (PyObj.cons (String.mk k) v tl, r5)
              else if c2 = rbrace then pure (PyObj.cons (String.mk k) v .nil, r4)
              else none
            | [] => none
          else none
        | [] => none
      else none
    | [] => none
end

/-- Parse `json.loads` on a chunk of text: one value, surrounding whitespace
allowed, trailing garbage rejected. -/
def loadsChars (cs : List Char) : Option PyVal :=
  match parseV (cs.length + 1) cs with
  | some (v, r) => if (skipWs r).isEmpty then some v else none
  | none => none

def loads (s : String) : Option PyVal := loadsChars s.data

mutual
/-- Well-formed values: every object, nested anywhere, has distinct keys —
 the invariant Python dicts guarantee by construction. -/
def wfV : PyVal → Bool
  | .arr l => wfL l
  | .obj o => freshKeys o && wfO o
  | .none => true
  | .bool _ => true
  | .int _ => true
  | .str _ => true
def wfL : PyList → Bool
  | .nil => true
  | .cons v tl => wfV v && wfL tl
def wfO : PyObj → Bool
  | .nil => true
  | .cons _ v tl => wfV v && wfO tl
/-- Keys of a member list are pairwise distinct. -/
def freshKeys : PyObj → Bool
  | .nil => true
  | .cons k _ tl => !(hasKeyO tl k) && freshKeys tl
end

mutual
/-- Parse-step weight of a value: an upper bound for the parser fuel it
needs. -/
def nodesV : PyVal → Nat
  | .arr l => nodesL l + 1
  | .obj o => nodesO o + 1
  | .none => 1
  | .bool _ => 1
  | .int _ => 1
  | .str _ => 1
def nodesL : PyList → Nat
  | .nil => 0
  | .cons v tl => nodesV v + nodesL tl + 1
def nodesO : PyObj → Nat
  | .nil => 0
  | .cons _ v tl => nodesV v + nodesO tl + 1
end

/-- Member-list concatenation. -/
def concatO : PyObj → PyObj → PyObj
  | .nil, o2 => o2
  | .cons k v tl, o2 => .cons k v (concatO tl o2)

/-- A remainder that cannot extend a printed number: empty or headed by a
non-digit (every JSON delimiter qualifies). -/
def dokRest : List Char → Bool
  | [] => true
  | c :: _ => !isDigitC c

/-! ### Timestamps and sort mode (01_json_to_jsonl/app.py) -/

/-- A Python `datetime`: calendar fields plus an optional UTC offset in
minutes (`none` models a naive datetime). -/
structure PyDT where
  year : Nat
  month : Nat
  day : Nat
  hour : Nat
  minute : Nat
  second : Nat
  off : Option Int
deriving DecidableEq

/-- Python `datetime.min`: `0001-01-01 00:00:00`, naive. -/
def dtMin : PyDT := ⟨1, 1, 1, 0, 0, 0, none⟩

/-- One decimal digit. -/
def dig (c : Char) : Option Nat := if isDigitC c then some (c.toNat - 48) else none

/-- Exactly two decimal digits. -/
def parse2 : List Char → Option (Nat × List Char)
  | a :: b :: rest => do
    let x ← dig a
    let y ← dig b
    pure (10 * x + y, rest)
  | _ => none

/-- Exactly four decimal digits. -/
def parse4 : List Char → Option (Nat × List Char)
  | a :: b :: c :: d :: rest => do
    let w ← dig a
    let x ← dig b
    let y ← dig c
    let z ← dig d
    pure (((w * 10 + x) * 10 + y) * 10 + z, rest)
  | _ => none

def isLeap (y : Nat) : Bool := (y % 4 == 0 && y % 100 != 0) || y % 400 == 0

def daysInMonth (y m : Nat) : Nat :=
  if m = 2 then (if isLeap y then 29 else 28)
  else if m = 4 ∨ m = 6 ∨ m = 9 ∨ m = 11 then 30 else 31

/-- A trailing UTC offset `±HH:MM`, or `none` input for a naive result. -/
def parseTZ : List Char → Option (Option Int)
  | [] => some none
  | '+' :: rest => do
    let (h, r1) ← parse2 rest
    match r1 with
    | ':' :: r2 => do
      let (m, r3) ← parse2 r2
      if r3 = [] ∧ h < 24 ∧ m < 60 then pure (some (h * 60 + m : Int)) else none
    | _ => none
  | '-' :: rest => do
    let (h, r1) ← parse2 rest
    match r1 with
    | ':' :: r2 => do
      let (m, r3) ← parse2 r2
      if r3 = [] ∧ h < 24 ∧ m < 60 then pure (some (-(h * 60 + m : Int))) else none
    | _ => none
  | _ => none

/-- Time `HH:MM[:SS]` plus optional offset. -/
def parseTime (cs : List Char) : Option (Nat × Nat × Nat × Option Int) := do
  let (h, r1) ← parse2 cs
  match r1 with
  | ':' :: r2 => do
    let (mi, r3) ← parse2 r2
    match r3 with
    | ':' :: r4 => do
      let (s, r5) ← parse2 r4
      let off ← parseTZ r5
      if h < 24 ∧ mi < 60 ∧ s < 60 then pure (h, mi, s, off) else none
    | _ => do
      let off ← parseTZ r3
      if h < 24 ∧ mi < 60 then pure (h, mi, 0, off) else none
  | _ => none

/-- A model of `datetime.fromisoformat` covering the dashed
`YYYY-MM-DD[THH:MM[:SS]][±HH:MM]` shapes the corpus uses; other accepted
Python spellings (fractional seconds, exotic separators) do not occur in
the claims and fail here. -/
def fromisoformat (cs : List Char) : Option PyDT := do
  let (y, r1) ← parse4 cs
  match r1 with
  | '-' :: r2 => do
    let (mo, r3) ← parse2 r2
    match r3 with
    | '-' :: r4 => do
      let (d, r5) ← parse2 r4
      if 1 ≤ mo ∧ mo ≤ 12 ∧ 1 ≤ d ∧ d ≤ daysInMonth y mo ∧ 1 ≤ y ∧ y ≤ 9999 then
        match r5 with
        | [] => pure ⟨y, mo, d, 0, 0, 0, none⟩
        | 'T' :: r6 => do
          let (h, mi, s, off) ← parseTime r6
          pure ⟨y, mo, d, h, mi, s, off⟩
        | _ => none
      else none
    | _ => none
  | _ => none

/-- Function `parse_iso_ts` (01_json_to_jsonl/app.py): only strings parse; strip,
rewrite a trailing `Z` to `+00:00`, then best-effort ISO parse, `None` on
failure. -/
def parse_iso_ts (ts : PyVal) : Option PyDT :=
  match ts with
  | .str s =>
    let t := pyStrip s.data
    fromisoformat
      (if t.getLast? = some 'Z' then t.dropLast ++ ['+', '0', '0', ':', '0', '0'] else t)
  | _ => none

/-- Days before month `m` in year `y`. -/
def cumDaysBeforeMonth (y m : Nat) : Nat :=
  (List.range (m - 1)).foldl (fun a i => a + daysInMonth y (i + 1)) 0

/-- A `datetime.toordinal`-style day count (proleptic Gregorian, day 0 at
0001-01-01). -/
def toOrdinalDays (y m d : Nat) : Nat :=
  365 * (y - 1) + (y - 1) / 4 - (y - 1) / 100 + (y - 1) / 400 + cumDaysBeforeMonth y m + (d - 1)

/-- Seconds since 0001-01-01 00:00:00 of the naive calendar fields. -/
def naiveSeconds (dt : PyDT) : Nat :=
  (toOrdinalDays dt.year dt.month dt.day * 24 + dt.hour) * 3600 + dt.minute * 60 + dt.second

/-- The instant of an aware datetime: naive seconds minus the offset. -/
def awareSeconds (dt : PyDT) (off : Int) : Int := (naiveSeconds dt : Int) - off * 60

/-- A Python runtime error relevant to these programs. -/
inductive PyErr : Type where
  | typeError : PyErr
  | attributeError : PyErr
deriving DecidableEq

/-- Python `<` on datetimes: two naive or two aware values compare fine;
mixing a naive with an aware one raises `TypeError`. -/
def pyLtDT (a b : PyDT) : Except PyErr Bool :=
  match a.off, b.off with
  | none, none => .ok (decide (naiveSeconds a < naiveSeconds b))
  | some x, some y => .ok (decide (awareSeconds a x < awareSeconds b y))
  | _, _ => .error .typeError

namespace Batch

/-- The sort key `parse_iso_ts(e.get("ts")) or datetime.min`. -/
def sortKey (ev : Ev) : PyDT := (parse_iso_ts ev.ts).getD dtMin

/-- Stable insertion of `ev` into the already-sorted `acc`: `ev` lands
before the first strictly greater key, hence after every equal key; a
`TypeError` from the comparison aborts. -/
def insertByTs (ev : Ev) : List Ev → Except PyErr (List Ev)
  | [] => .ok [ev]
  | x :: xs => do
    let lt ← pyLtDT (sortKey ev) (sortKey x)
    if lt then pure (ev :: x :: xs)
    else do
      let tl ← insertByTs ev xs
      pure (x :: tl)

/-- Sorting `events.sort(key=lambda e: parse_iso_ts(e.get("ts")) or datetime.min)`:
a stable comparison sort over the Python `<` of the keys, which raises
`TypeError` as soon as a naive key meets an aware one. -/
def sortEventsByTs (evs : List Ev) : Except PyErr (List Ev) :=
  evs.foldlM (fun acc ev => insertByTs ev acc) []

/-- A minimal kept record carrying the given `ts`, as the spec's sort
stability test constructs them. -/
def tsOnly (ts : PyVal) : Ev :=
  { ts := ts, user_id := .str "user_001", username := .none, task := .int 1,
    event := .none, code := .none, stdout := .none, stderr := .none,
    estimated_stage := .none, next_stage := .none,
    processing_structure := .none, advice := .none }

/-- The spec's sort-stability bucket: timestamps
`["2024-01-02T00:00:00Z", None, "2024-01-01T00:00:00Z"]`. -/
def c3bucket : List Ev :=
  [tsOnly (.str "2024-01-02T00:00:00Z"), tsOnly .none,
   tsOnly (.str "2024-01-01T00:00:00Z")]

end Batch

/-! ### The Query API (log_viewer/api/main.py) -/

namespace Api

/-- One event as the API returns it: its positional index, the
front-friendly fields, and the raw parsed object. -/
structure ApiEv where
  idx : Nat
  ts : PyVal
  user : PyVal
  task : PyVal
  event : PyVal
  code : PyVal
  stdout : PyVal
  stderr : PyVal
  estimated_stage : PyVal
  next_stage : PyVal
  processing_structure : PyVal
  advice : PyVal
  raw : PyVal

/-- A placeholder event (never observable through the endpoints). -/
def defEv : ApiEv :=
  ⟨0, .none, .none, .none, .none, .none, .none, .none, .none, .none, .none, .none, .none⟩

/-- Function `normalize_event` of the API: key-variant chains for each field plus
the `run: {stdout, stderr}` fallback, and the raw object kept alongside. -/
def normalize_event (o : PyObj) (idx : Nat) : ApiEv :=
  let run_obj : PyObj := match o.get "run" with
    | .obj ro => ro
    | _ => .nil
  { idx := idx
    ts := orP (o.get "timestamp") (orP (o.get "ts") (orP (o.get "time") (o.get "datetime")))
    user := orP (o.get "user") (orP (o.get "userId") (o.get "username"))
    task := orP (o.get "task") (orP (o.get "taskNumber") (o.get "task_id"))
    event := orP (o.get "event") (o.get "type")
    code := orP (o.get "code") (orP (o.get "source") (o.get "program"))
    stdout := match o.get "stdout" with
      | .none => run_obj.get "stdout"
      | v => v
    stderr := match o.get "stderr" with
      | .none => run_obj.get "stderr"
      | v => v
    estimated_stage := o.get "estimated_stage"
    next_stage := o.get "next_stage"
    processing_structure := o.get "processing_structure"
    advice := o.get "advice"
    raw := .obj o }

/-- The line loop of `read_jsonl_events`: strip each line, skip blank and
unparsable ones silently, number the parsed ones consecutively; a line
whose JSON is not an object makes `normalize_event` call `.get` on a
non-dict, raising `AttributeError` and aborting the request. -/
def readLines : List String → Nat → Except PyErr (List ApiEv)
  | [], _ => .ok []
  | l :: rest, idx =>
    let t := pyStrip l.data
    if t.isEmpty then readLines rest idx
    else
      match loadsChars t with
      | none => readLines rest idx
      | some (.obj o) => do
        let tl ← readLines rest (idx + 1)
        pure (normalize_event o idx :: tl)
      | some _ => .error .attributeError

/-- Function `read_jsonl_events`: an absent file yields `[]`, otherwise the parsed
lines. -/
def read_jsonl_events (file : Option (List String)) : Except PyErr (List ApiEv) :=
  match file with
  | none => .ok []
  | some lines => readLines lines 0

/-- The corpus as the API sees it: whether `LOG_ROOT` exists, the user
directories in it, and the lines of each file, addressed as
`directory name → file name → lines` (`none` for a missing file). -/
structure FS where
  rootExists : Bool
  dirs : List String
  file : String → String → Option (List String)

/-- A non-200 outcome: an `HTTPException` with its status code, or an
uncaught Python exception. -/
inductive ApiFail : Type where
  | http : Nat → ApiFail
  | pyErr : PyErr → ApiFail
deriving DecidableEq

/-- Substitution `re.sub(r"\D", "", user)`: the digit characters of the user segment. -/
def digitsOf (user : String) : String := String.mk (user.data.filter isDigitC)

/-- Filename `f"user{user_digits}_task{int(task):03d}.jsonl"`. -/
def taskFilename (user : String) (task : Int) : String :=
  "user" ++ digitsOf user ++ "_task" ++ String.mk (intPad3 task) ++ ".jsonl"

/-- The JSON body of a successful events response. -/
structure EventsResp where
  user : String
  task : Int
  count : Nat
  events : List ApiEv

/-- Endpoint `GET /api/users/{user}/tasks/{task}/events`: 500 when the root is
missing, 404 when the user directory is missing, otherwise the parsed
file (an absent task file reads as no lines at all). -/
def events (fs : FS) (user : String) (task : Int) : Except ApiFail EventsResp :=
  if !fs.rootExists then .error (.http 500)
  else if !(fs.dirs.contains user) then .error (.http 404)
  else
    match read_jsonl_events (fs.file user (taskFilename user task)) with
    | .error e => .error (.pyErr e)
    | .ok evs => .ok ⟨user, task, evs.length, evs⟩

/-- Modelled from the spec: the endpoint
`GET /api/users/{user}/tasks/{task}/events/{idx}` is missing from the
source tree (the spec alone documents it).  It reads the same corpus as
the `events` endpoint, returns the positional element, and a not-found
error when `idx` is out of range. -/
def eventByIdx (fs : FS) (user : String) (task : Int) (idx : Nat) :
    Except ApiFail ApiEv :=
  if !fs.rootExists then .error (.http 500)
  else if !(fs.dirs.contains user) then .error (.http 404)
  else
    match read_jsonl_events (fs.file user (taskFilename user task)) with
    | .error e => .error (.pyErr e)
    | .ok evs =>
      if h : idx < evs.length then .ok (evs.get ⟨idx, h⟩) else .error (.http 404)

/-- Python `str.splitlines()` restricted to `\n` separators: split at
newlines, no trailing empty piece for a trailing newline, `[]` for `""`. -/
def splitlines (s : String) : List String :=
  if s.data.isEmpty then []
  else
    let parts := (splitOnC '\n' s.data).map String.mk
    if s.data.getLast? = some '\n' then parts.dropLast else parts

/-- Length of a longest common subsequence of two line lists (fuel-based
so that it evaluates inside the kernel). -/
def lcsLen : Nat → List String → List String → Nat
  | 0, _, _ => 0
  | f + 1, xs, ys =>
    match xs, ys with
    | [], _ => 0
    | _ :: _, [] => 0
    | x :: xs2, y :: ys2 =>
      if x = y then lcsLen f xs2 ys2 + 1
      else max (lcsLen f xs2 (y :: ys2)) (lcsLen f (x :: xs2) ys2)

/-- The diff body: each line marked ` ` (context), `-` (removed from the
old text) or `+` (added by the new text), following a longest-common-
subsequence alignment. -/
def diffLines : Nat → List String → List String → List String
  | 0, _, _ => []
  | f + 1, xs, ys =>
    match xs, ys with
    | [], ys2 => ys2.map (fun y => "+" ++ y)
    | xs2, [] => xs2.map (fun x => "-" ++ x)
    | x :: xs2, y :: ys2 =>
      if x = y then (" " ++ x) :: diffLines f xs2 ys2
      else if lcsLen (f + 1) (x :: xs2) ys2 ≤ lcsLen (f + 1) xs2 (y :: ys2) then
        ("-" ++ x) :: diffLines f xs2 (y :: ys2)
      else ("+" ++ y) :: diffLines f (x :: xs2) ys2

def joinNL : List String → String
  | [] => ""
  | [l] => l
  | l :: l2 :: rest => l ++ "\n" ++ joinNL (l2 :: rest)

/-- Modelled from the spec: the Diff Utility, a standard line-based diff
of two text blobs, rendered one marked line per row. -/
def unifiedDiff (a b : String) : String :=
  let xs := splitlines a
  let ys := splitlines b
  joinNL (diffLines (xs.length + ys.length + 1) xs ys)

/-- The `code` field of an event as diff input: its text when it is a
string, the empty string otherwise (in particular when absent). -/
def codeText (ev : ApiEv) : String :=
  match ev.code with
  | .str s => s
  | _ => ""

/-- Modelled from the spec: the endpoint
`GET /api/users/{user}/tasks/{task}/diff/{idx}` is missing from the
source tree.  It reads the same corpus as the `events` endpoint, computes
the unified line diff between the `code` of the events at `idx-1` and
`idx`, and returns empty text when `idx` is at or before the first
position or beyond the last. -/
def diffEndpoint (fs : FS) (user : String) (task : Int) (idx : Nat) :
    Except ApiFail String :=
  if !fs.rootExists then .error (.http 500)
  else if !(fs.dirs.contains user) then .error (.http 404)
  else
    match read_jsonl_events (fs.file user (taskFilename user task)) with
    | .error e => .error (.pyErr e)
    | .ok evs =>
      if idx = 0 ∨ evs.length ≤ idx then .ok ""
      else .ok (unifiedDiff (codeText (evs.getD (idx - 1) defEv))
        (codeText (evs.getD idx defEv)))

end Api

/-! ### The JSONL writer and the tabular exporter (02_jsonl_to_csv/app.py) -/

/-- The unified key set, in its fixed order. -/
def UNIFIED_KEYS : List String :=
  ["ts", "user_id", "username", "task", "event", "code", "stdout", "stderr",
   "estimated_stage", "next_stage", "processing_structure", "advice"]

namespace Batch

/-- The writer's row for one event:
`{k: ev.get(k, None) for k in UNIFIED_KEYS}` — a normalized event holds
exactly the unified keys, laid out here in the fixed order. -/
def rowObj (ev : Ev) : PyObj :=
  .cons "ts" ev.ts (.cons "user_id" ev.user_id (.cons "username" ev.username
    (.cons "task" ev.task (.cons "event" ev.event (.cons "code" ev.code
    (.cons "stdout" ev.stdout (.cons "stderr" ev.stderr
    (.cons "estimated_stage" ev.estimated_stage (.cons "next_stage" ev.next_stage
    (.cons "processing_structure" ev.processing_structure
    (.cons "advice" ev.advice .nil)))))))))))

/-- The JSONL writer: one `json.dumps(row, ensure_ascii=False)` line per
event, in bucket order. -/
def jsonlLines (bucket : List Ev) : List String :=
  bucket.map (fun ev => dumps (.obj (rowObj ev)))

/-- Well-formedness of a record: each of its twelve field values is a
well-formed Python value (nested dicts have distinct keys). -/
def wfEv (ev : Ev) : Bool :=
  wfV ev.ts && wfV ev.user_id && wfV ev.username && wfV ev.task && wfV ev.event &&
  wfV ev.code && wfV ev.stdout && wfV ev.stderr && wfV ev.estimated_stage &&
  wfV ev.next_stage && wfV ev.processing_structure && wfV ev.advice

/-- The expected exporter row, stated directly on the in-memory record:
`processing_structure` and `advice` become their compact JSON text when
non-null, nulls become the empty string, everything else is unchanged. -/
def csvField (stringify : Bool) (v : PyVal) : PyVal :=
  match v with
  | .none => .str ""
  | w => if stringify then .str (dumps w) else w

def specRow (ev : Ev) : List (String × PyVal) :=
  [("ts", csvField false ev.ts), ("user_id", csvField false ev.user_id),
   ("username", csvField false ev.username), ("task", csvField false ev.task),
   ("event", csvField false ev.event), ("code", csvField false ev.code),
   ("stdout", csvField false ev.stdout), ("stderr", csvField false ev.stderr),
   ("estimated_stage", csvField false ev.estimated_stage),
   ("next_stage", csvField false ev.next_stage),
   ("processing_structure", csvField true ev.processing_structure),
   ("advice", csvField true ev.advice)]

end Batch

namespace Csv

/-- Function `iter_jsonl`: strip each line, skip blanks, abort the whole file on a
parse error (`RuntimeError` with file and line context), yield only dict
values. -/
def iter_jsonl : List String → Except Unit (List PyObj)
  | [] => .ok []
  | l :: rest =>
    let t := pyStrip l.data
    if t.isEmpty then iter_jsonl rest
    else
      match loadsChars t with
      | none => .error ()
      | some (.obj o) => do
        let tl ← iter_jsonl rest
        pure (o :: tl)
      | some _ => iter_jsonl rest

/-- Membership in `JSON_STRINGIFY_FIELDS`. -/
def stringifyField (k : String) : Bool := k == "processing_structure" || k == "advice"

/-- Function `ensure_row`: for each unified key take the parsed value, re-serialize
`processing_structure`/`advice` to JSON text when non-null, then map a
remaining null to the empty string. -/
def ensure_row (o : PyObj) : List (String × PyVal) :=
  UNIFIED_KEYS.map (fun k =>
    let v := o.get k
    let v2 := if stringifyField k then
        match v with
        | .none => PyVal.none
        | w => PyVal.str (dumps w)
      else v
    (k, match v2 with
        | .none => PyVal.str ""
        | w => w))

/-- The exporter's data rows for one file, given its lines. -/
def tabularRows (lines : List String) : Except Unit (List (List (String × PyVal))) :=
  (iter_jsonl lines).map (List.map ensure_row)

end Csv

namespace Api

/-- Does a line contribute an event: nonblank after stripping, and
JSON-parsable. -/
def okLine (l : String) : Bool :=
  !(pyStrip l.data).isEmpty && (loadsChars (pyStrip l.data)).isSome

end Api

/-! ### Concrete corpora used by the witnesses -/

/-- The record and corpus of the C4 witness: a `user` field is present
but no task is resolvable anywhere. -/
def c4raw : PyObj := .cons "user" (.str "alice") .nil

def c4files : List (String × List PyObj) := [("log/user_001/run.json", [c4raw])]

/-- The C9 counterexample corpus: `{"user": "nouser"}` read from a path
carrying no identity, with no task number anywhere. -/
def c9raw : PyObj := .cons "user" (.str "nouser") .nil

def c9files : List (String × List PyObj) := [("data.json", [c9raw])]

/-- The C9 witness record: a digit-free `user` plus a numeric task. -/
def c9wraw : PyObj := .cons "user" (.str "nouser") (.cons "taskNumber" (.int 3) .nil)

def c9wfiles : List (String × List PyObj) := [("data.json", [c9wraw])]

/-- The spec's bad-line corpus: three lines, the middle one invalid JSON. -/
def c6lines : List String :=
  ["\x7b\"event\": \"run\"\x7d", "oops \x7b", "\x7b\"event\": \"save\"\x7d"]

/-- The two events the bad-line corpus parses to. -/
def c6evs : List Api.ApiEv :=
  [Api.normalize_event (.cons "event" (.str "run") .nil) 0,
   Api.normalize_event (.cons "event" (.str "save") .nil) 1]

/-- The corpus of the C6/C10 witnesses. -/
def c6fs : Api.FS :=
  ⟨true, ["user_005"], fun d f =>
    if d = "user_005" && f = "user005_task002.jsonl" then some c6lines else none⟩

/-- The bucket of the C7 witness: one record with a nested
`processing_structure`, a string `advice` and several nulls. -/
def c7ev : Batch.Ev :=
  { ts := .str "2024-01-01T00:00:00Z", user_id := .str "user_001",
    username := .none, task := .int 1, event := .str "ai-help", code := .str "x = 1\n",
    stdout := .none, stderr := .none, estimated_stage := .str "plan",
    next_stage := .none,
    processing_structure := .obj (.cons "steps" (.arr (.cons (.int 1)
      (.cons (.str "two") .nil))) .nil),
    advice := .str "try again" }

def c7bucket : List Batch.Ev := [c7ev]

/-- The corpus of the C8 witness: one user directory, no files at all. -/
def c8fs : Api.FS := ⟨true, ["user_005"], fun _ _ => none⟩

/-- The spec's diff-example corpus: two events with codes `"a\nb"` and
`"a\nc"`. -/
def c1lines : List String :=
  ["\x7b\"code\": \"a\\nb\"\x7d", "\x7b\"code\": \"a\\nc\"\x7d"]

def c1evs : List Api.ApiEv :=
  [Api.normalize_event (.cons "code" (.str "a\nb") .nil) 0,
   Api.normalize_event (.cons "code" (.str "a\nc") .nil) 1]

def c1fs : Api.FS :=
  ⟨true, ["user_001"], fun d f =>
    if d = "user_001" && f = "user001_task001.jsonl" then some c1lines else none⟩

/-! ## Lemmas -/

/-! ### Arithmetic facts about the digit printer -/

theorem digitC_toNat {d : Nat} (h : d < 10) : (digitC d).toNat = 48 + d := by
  interval_cases d <;> decide

theorem isDigitC_digitC {d : Nat} (h : d < 10) : isDigitC (digitC d) = true := by
  interval_cases d <;> decide

theorem decVal_append_digit (l : List Char) (c : Char) :
    decVal (l ++ [c]) = 10 * decVal l + (c.toNat - 48) := by
  simp [decVal, List.foldl_append]

theorem decCharsAux_spec : ∀ f n, n < f →
    decVal (decCharsAux f n) = n ∧
    (∀ c ∈ decCharsAux f n, isDigitC c = true) ∧ decCharsAux f n ≠ [] := by
  intro f
  induction f with
  | zero => omega
  | succ f ih =>
    intro n hn
    by_cases h10 : n < 10
    · refine ⟨?_, ?_, ?_⟩ <;> simp only [decCharsAux, if_pos h10]
      · simp [decVal, digitC_toNat h10]
      · intro c hc
        rw [List.mem_singleton] at hc
        exact hc ▸ isDigitC_digitC h10
      · simp
    · have hdiv : n / 10 < f := by
        have := Nat.div_lt_self (show 0 < n by omega) (show 1 < 10 by omega)
        omega
      obtain ⟨hv, hd, hne⟩ := ih (n / 10) hdiv
      refine ⟨?_, ?_, ?_⟩ <;> simp only [decCharsAux, if_neg h10]
      · rw [decVal_append_digit, hv, digitC_toNat (Nat.mod_lt _ (by omega))]
        omega
      · intro c hc
        rcases List.mem_append.mp hc with h | h
        · exact hd c h
        · rw [List.mem_singleton] at h
          exact h ▸ isDigitC_digitC (Nat.mod_lt _ (by omega))
      · simp

theorem decVal_decChars (n : Nat) : decVal (decChars n) = n :=
  (decCharsAux_spec (n + 1) n (by omega)).1

theorem decChars_digits (n : Nat) : ∀ c ∈ decChars n, isDigitC c = true :=
  (decCharsAux_spec (n + 1) n (by omega)).2.1

theorem decChars_ne_nil (n : Nat) : decChars n ≠ [] :=
  (decCharsAux_spec (n + 1) n (by omega)).2.2

theorem decVal_zeros_append (k : Nat) (l : List Char) :
    decVal (List.replicate k '0' ++ l) = decVal l := by
  induction k with
  | zero => simp
  | succ k ih => simpa [decVal, List.replicate_succ] using ih

theorem decVal_zpad (w : Nat) (l : List Char) : decVal (zpad w l) = decVal l :=
  decVal_zeros_append _ _

theorem zpad_digits (w : Nat) (l : List Char) (h : ∀ c ∈ l, isDigitC c = true) :
    ∀ c ∈ zpad w l, isDigitC c = true := by
  intro c hc
  rcases List.mem_append.mp hc with h0 | h0
  · rw [List.eq_of_mem_replicate h0]; decide
  · exact h c h0

theorem zpad_ne_nil (w : Nat) (l : List Char) (h : l ≠ []) : zpad w l ≠ [] := by
  intro habs
  exact h (List.append_eq_nil.mp habs).2

/-- On a nonempty all-digit string the first digit run is the whole string. -/
theorem firstDigitRun_all (l : List Char) (hne : l ≠ [])
    (hd : ∀ c ∈ l, isDigitC c = true) : firstDigitRun l = some l := by
  cases l with
  | nil => exact absurd rfl hne
  | cons c cs =>
    have hc : isDigitC c = true := hd c (by simp)
    have htw : cs.takeWhile isDigitC = cs :=
      List.takeWhile_eq_self_iff.mpr (fun x hx => hd x (List.mem_cons.mpr (Or.inr hx)))
    rw [firstDigitRun, if_pos hc, htw]

/-- Scanning past a non-digit character. -/
theorem firstDigitRun_skip (c : Char) (cs : List Char) (h : isDigitC c = false) :
    firstDigitRun (c :: cs) = firstDigitRun cs := by
  rw [firstDigitRun, if_neg (by simp [h])]

/-- Function `pad_user_id` always produces `user_` followed by at least three digits,
and the digits denote exactly the extracted number. -/
theorem userTag_data (n : Nat) :
    (userTag n).data = ['u', 's', 'e', 'r', '_'] ++ zpad 3 (decChars n) := rfl

theorem firstDigitRun_userTag (n : Nat) :
    firstDigitRun (userTag n).data = some (zpad 3 (decChars n)) := by
  rw [userTag_data]
  have h1 : firstDigitRun (['u', 's', 'e', 'r', '_'] ++ zpad 3 (decChars n)) =
      firstDigitRun (zpad 3 (decChars n)) := by
    simp only [List.cons_append, List.nil_append]
    rw [firstDigitRun_skip _ _ (by decide), firstDigitRun_skip _ _ (by decide),
      firstDigitRun_skip _ _ (by decide), firstDigitRun_skip _ _ (by decide),
      firstDigitRun_skip _ _ (by decide)]
  rw [h1]
  exact firstDigitRun_all _ (zpad_ne_nil _ _ (decChars_ne_nil n)) (zpad_digits _ _ (decChars_digits n))

theorem pad_user_id_userTag (n : Nat) : pad_user_id (userTag n) = userTag n := by
  rw [pad_user_id, firstDigitRun_userTag n]
  show userTag (decVal (zpad 3 (decChars n))) = userTag n
  rw [decVal_zpad, decVal_decChars]

/-- Function `pad_user_id` is idempotent. -/
theorem pad_user_id_idem (s : String) : pad_user_id (pad_user_id s) = pad_user_id s := by
  rw [show pad_user_id s = userTag (match firstDigitRun s.data with
      | some ds => decVal ds
      | none => 0) from rfl]
  exact pad_user_id_userTag _

/-- A digit-free string yields no run at all. -/
theorem firstDigitRun_none : ∀ l : List Char, (∀ c ∈ l, isDigitC c = false) →
    firstDigitRun l = none := by
  intro l
  induction l with
  | nil => intro _; rfl
  | cons c cs ih =>
    intro h
    rw [firstDigitRun_skip c cs (h c (by simp))]
    exact ih (fun x hx => h x (List.mem_cons.mpr (Or.inr hx)))

/-- A string without digits normalizes to `user_000`. -/
theorem pad_user_id_no_digits (s : String) (h : ∀ c ∈ s.data, isDigitC c = false) :
    pad_user_id s = userTag 0 := by
  rw [pad_user_id, firstDigitRun_none s.data h]

theorem orP_falsy (a b : PyVal) (h : pyTruthy a = false) : orP a b = b := by
  rw [orP, if_neg (by simp [h])]

theorem pyTruthy_orP (a b : PyVal) : pyTruthy (orP a b) = (pyTruthy a || pyTruthy b) := by
  by_cases h : pyTruthy a = true <;> simp [orP, h]

namespace Batch

/-- Only filter-passing events ever sit in the kept stream. -/
theorem keep_of_mem_keptEvents (files : List (String × List PyObj)) (ev : Ev)
    (h : ev ∈ keptEvents files) : keep ev = true := by
  rw [keptEvents, List.mem_flatten] at h
  obtain ⟨l, hl, hev⟩ := h
  rw [List.mem_map] at hl
  obtain ⟨p, _, rfl⟩ := hl
  rw [fileEvents, List.mem_filter] at hev
  exact hev.2

/-- Written events come from the kept stream. -/
theorem mem_keptEvents_of_mem_writtenEvents (files : List (String × List PyObj)) (ev : Ev)
    (h : ev ∈ writtenEvents files) : ev ∈ keptEvents files := by
  rw [writtenEvents, List.mem_flatten] at h
  obtain ⟨l, hl, hev⟩ := h
  rw [List.mem_map] at hl
  obtain ⟨k, _, rfl⟩ := hl
  rw [bucket, List.mem_filter] at hev
  exact hev.1

/-- Field `.user_id` of a normalized event, unfolded. -/
theorem normalize_event_user_id (raw : PyObj) (fbU : Option String) (fbT : Option Int) :
    (normalize_event raw fbU fbT).user_id =
      (match orP (raw.get "userId") (orP (raw.get "user_id") (orP (raw.get "user")
          (match fbU with | some u => PyVal.str u | none => PyVal.none))) with
        | PyVal.none => PyVal.none
        | v => PyVal.str (pad_user_id_py v)) := rfl

/-- Field `.task` of a normalized event, unfolded. -/
theorem normalize_event_task (raw : PyObj) (fbU : Option String) (fbT : Option Int) :
    (normalize_event raw fbU fbT).task =
      (match (match to_int_or_none (fieldTask raw) with
              | some n => some n
              | none => fbT) with
        | some n => PyVal.int n
        | none => PyVal.none) := rfl

/-- With no discoverable user identity the normalized `user_id` is null. -/
theorem normalize_user_id_none (raw : PyObj) (p : String) (fbT : Option Int)
    (h : ¬ userDiscoverable raw p) :
    (normalize_event raw (discover_user_task_from_path p).1 fbT).user_id = PyVal.none := by
  rw [userDiscoverable, not_or] at h
  obtain ⟨htr, hfb⟩ := h
  have hfb2 : (discover_user_task_from_path p).1 = none := by
    by_contra hne
    exact hfb hne
  have htr2 : pyTruthy (fieldUser raw) = false := by
    simp only [Bool.not_eq_true] at htr
    exact htr
  rw [fieldUser, pyTruthy_orP, pyTruthy_orP] at htr2
  simp only [Bool.or_eq_false_iff] at htr2
  obtain ⟨h1, h2, h3⟩ := htr2
  rw [normalize_event_user_id, hfb2]
  rw [orP_falsy _ _ h3, orP_falsy _ _ h2, orP_falsy _ _ h1]

/-- With no resolvable task number the normalized `task` is null. -/
theorem normalize_task_none (raw : PyObj) (p : String) (fbU : Option String)
    (h : ¬ taskResolvable raw p) :
    (normalize_event raw fbU (discover_user_task_from_path p).2).task = PyVal.none := by
  rw [taskResolvable, not_or] at h
  obtain ⟨hint, hfb⟩ := h
  have hint2 : to_int_or_none (fieldTask raw) = none := by
    by_contra hne
    exact hint hne
  have hfb2 : (discover_user_task_from_path p).2 = none := by
    by_contra hne
    exact hfb hne
  rw [normalize_event_task, hint2, hfb2]

/-- A record with unresolved identity fails the partition filter. -/
theorem keep_false_of_unresolved (raw : PyObj) (p : String)
    (hdrop : ¬ userDiscoverable raw p ∨ ¬ taskResolvable raw p) :
    keep (normalize_event raw (discover_user_task_from_path p).1
      (discover_user_task_from_path p).2) = false := by
  rcases hdrop with h | h
  · rw [keep, normalize_user_id_none raw p _ h]
    rfl
  · rw [keep, normalize_task_none raw p _ h]
    simp

/-- Kept events with their source data: membership transport into the
kept stream. -/
theorem mem_keptEvents_intro (files : List (String × List PyObj)) (p : String)
    (raws : List PyObj) (raw : PyObj) (hmem : (p, raws) ∈ files) (hraw : raw ∈ raws)
    (hkeep : keep (normalize_event raw (discover_user_task_from_path p).1
      (discover_user_task_from_path p).2) = true) :
    normalize_event raw (discover_user_task_from_path p).1
      (discover_user_task_from_path p).2 ∈ keptEvents files := by
  rw [keptEvents, List.mem_flatten]
  refine ⟨fileEvents (p, raws), List.mem_map.mpr ⟨(p, raws), hmem, rfl⟩, ?_⟩
  rw [fileEvents, List.mem_filter]
  exact ⟨List.mem_map.mpr ⟨raw, hraw, rfl⟩, hkeep⟩

end Batch

/-! ### Round-trip of the JSON codec -/

theorem digit_no_special (c : Char) (h : isDigitC c = true) :
    isWsC c = false ∧ c ≠ '"' ∧ c ≠ '[' ∧ c ≠ lbrace ∧ c ≠ '-' ∧ c ≠ ']' := by
  refine ⟨?_, ?_, ?_, ?_, ?_, ?_⟩
  · simp only [isWsC, Bool.or_eq_false_iff, decide_eq_false_iff_not]
    refine ⟨⟨⟨?_, ?_⟩, ?_⟩, ?_⟩ <;> (intro heq; subst heq; exact absurd h (by decide))
  all_goals (intro heq; subst heq; exact absurd h (by decide))

theorem skipWs_cons_of_not_ws (c : Char) (l : List Char) (h : isWsC c = false) :
    skipWs (c :: l) = c :: l := by
  simp [skipWs, List.dropWhile_cons, h]

theorem skipWs_sp (l : List Char) : skipWs (' ' :: l) = skipWs l := rfl

theorem parseV_sp : ∀ (f : Nat) (x : List Char), parseV f (' ' :: x) = parseV f x
  | 0, x => rfl
  | f + 1, x => by
    simp only [parseV]
    rw [skipWs_sp]

theorem parseElemsV_sp : ∀ (f : Nat) (x : List Char),
    parseElemsV f (' ' :: x) = parseElemsV f x
  | 0, x => rfl
  | f + 1, x => by
    simp only [parseElemsV]
    rw [parseV_sp]

theorem parseMembersV_sp : ∀ (f : Nat) (x : List Char),
    parseMembersV f (' ' :: x) = parseMembersV f x
  | 0, x => rfl
  | f + 1, x => by
    simp only [parseMembersV]
    rw [skipWs_sp]

/-- The first character of any printed value: never whitespace, never a
closing bracket. -/
theorem dumpsV_head (v : PyVal) :
    ∃ c t, dumpsV v = c :: t ∧ isWsC c = false ∧ c ≠ ']' := by
  cases v with
  | none => exact ⟨_, _, rfl, by decide, by decide⟩
  | bool b => cases b <;> exact ⟨_, _, rfl, by decide, by decide⟩
  | int n =>
    show ∃ c t, intChars n = c :: t ∧ _
    rw [intChars]
    by_cases hn : n < 0
    · exact ⟨'-', _, by rw [if_pos hn], by decide, by decide⟩
    · rw [if_neg hn]
      cases hd : decChars n.toNat with
      | nil => exact absurd hd (decChars_ne_nil _)
      | cons c t =>
        have hc : isDigitC c = true := decChars_digits _ c (hd ▸ List.mem_cons_self _ _)
        obtain ⟨h1, _, _, _, _, h6⟩ := digit_no_special c hc
        exact ⟨c, t, rfl, h1, h6⟩
  | str s2 => exact ⟨_, _, rfl, by decide, by decide⟩
  | arr l => cases l <;> exact ⟨_, _, rfl, by decide, by decide⟩
  | obj o => cases o <;> exact ⟨_, _, rfl, by decide, by decide⟩

/-- The first character of a printed integer starts a number and starts
no other token. -/
theorem intChars_head (n : Int) :
    ∃ c t, intChars n = c :: t ∧ (c = '-' ∨ isDigitC c = true) ∧
      isWsC c = false ∧ c ≠ '"' ∧ c ≠ '[' ∧ c ≠ lbrace := by
  rw [intChars]
  by_cases hn : n < 0
  · exact ⟨'-', _, by rw [if_pos hn], Or.inl rfl, by decide, by decide, by decide, by decide⟩
  · rw [if_neg hn]
    cases hd : decChars n.toNat with
    | nil => exact absurd hd (decChars_ne_nil _)
    | cons c t =>
      have hc : isDigitC c = true := decChars_digits _ c (hd ▸ List.mem_cons_self _ _)
      obtain ⟨h1, h2, h3, h4, _, _⟩ := digit_no_special c hc
      exact ⟨c, t, rfl, Or.inr hc, h1, h2, h3, h4⟩

/-- What follows one printed array element can never extend a number. -/
theorem dok_elems (tl : PyList) (rest : List Char) :
    dokRest (dumpsElems tl ++ ']' :: rest) = true := by
  cases tl <;> rfl

/-- What follows one printed object member can never extend a number. -/
theorem dok_members (tl : PyObj) (rest : List Char) :
    dokRest (dumpsMembers tl ++ rbrace :: rest) = true := by
  cases tl <;> rfl

theorem hexVal_hexDigitC (d : Nat) (h : d < 16) : hexVal (hexDigitC d) = some d := by
  interval_cases d <;> decide

/-- Unfolding of `strBody` at an ordinary character. -/
theorem strBody_plain (c : Char) (rest : List Char)
    (h1 : c ≠ '"') (h2 : c ≠ '\\') (h3 : ¬c.toNat < 32) :
    strBody (c :: rest) =
      (match strBody rest with
       | some (s2, r2) => some (c :: s2, r2)
       | none => none) := by
  rw [strBody, if_neg h1, if_neg h2, if_neg h3]

/-- Parsing one escaped character undoes `escChar`. -/
theorem strBody_escChar (c : Char) (tail s r : List Char)
    (h : strBody tail = some (s, r)) :
    strBody (escChar c ++ tail) = some (c :: s, r) := by
  rw [escChar]
  by_cases h1 : c = '"'
  · subst h1
    simp [strBody, strEsc, escDecode, h]
  rw [if_neg h1]
  by_cases h2 : c = '\\'
  · subst h2
    simp [strBody, strEsc, escDecode, h]
  rw [if_neg h2]
  by_cases h3 : c = '\n'
  · subst h3
    simp [strBody, strEsc, escDecode, h]
  rw [if_neg h3]
  by_cases h4 : c = '\r'
  · subst h4
    simp [strBody, strEsc, escDecode, h]
  rw [if_neg h4]
  by_cases h5 : c = '\t'
  · subst h5
    simp [strBody, strEsc, escDecode, h]
  rw [if_neg h5]
  by_cases h6 : c.toNat = 8
  · rw [if_pos h6]
    have hc : c = Char.ofNat 8 := by
      rw [← h6, Char.ofNat_toNat]
    subst hc
    simp [strBody, strEsc, escDecode, h]
  rw [if_neg h6]
  by_cases h7 : c.toNat = 12
  · rw [if_pos h7]
    have hc : c = Char.ofNat 12 := by
      rw [← h7, Char.ofNat_toNat]
    subst hc
    simp [strBody, strEsc, escDecode, h]
  rw [if_neg h7]
  by_cases h8 : c.toNat < 32
  · rw [if_pos h8]
    have hhi : c.toNat / 16 < 16 := by omega
    have hlo : c.toNat % 16 < 16 := by omega
    have h0 : hexVal '0' = some 0 := by decide
    have harith : ((0 * 16 + 0) * 16 + c.toNat / 16) * 16 + c.toNat % 16 = c.toNat := by
      omega
    simp only [List.cons_append, List.nil_append]
    rw [strBody, if_neg (by decide), if_pos rfl, strEsc, if_pos rfl, strEscU,
      h0, hexVal_hexDigitC _ hhi, hexVal_hexDigitC _ hlo]
    simp only [harith]
    rw [if_pos (Or.inl (by omega : c.toNat < 55296)), h, Char.ofNat_toNat]
  · rw [if_neg h8]
    simp only [List.cons_append, List.nil_append]
    rw [strBody_plain c tail h1 h2 h8, h]

/-- Parsing a fully escaped string body stops exactly at the closing
quote and recovers the original characters. -/
theorem strBody_escStr : ∀ (l : List Char) (rest : List Char),
    strBody (escStr l ++ '"' :: rest) = some (l, rest) := by
  intro l
  induction l with
  | nil =>
    intro rest
    simp [escStr, strBody]
  | cons c tl ih =>
    intro rest
    have hesc : escStr (c :: tl) = escChar c ++ escStr tl := rfl
    rw [hesc, List.append_assoc]
    exact strBody_escChar c _ tl rest (ih rest)

theorem takeWhile_digits_append (l rest : List Char)
    (hl : ∀ c ∈ l, isDigitC c = true) (hrest : dokRest rest = true) :
    (l ++ rest).takeWhile isDigitC = l ∧ (l ++ rest).dropWhile isDigitC = rest := by
  induction l with
  | nil =>
    cases rest with
    | nil => exact ⟨rfl, rfl⟩
    | cons c t =>
      rw [dokRest, Bool.not_eq_true'] at hrest
      constructor
      · simp [List.takeWhile_cons, hrest]
      · simp [List.dropWhile_cons, hrest]
  | cons c t ih =>
    have hc := hl c (by simp)
    have hrec := ih (fun x hx => hl x (by simp [hx]))
    constructor
    · simp [List.takeWhile_cons, hc, hrec.1]
    · simp [List.dropWhile_cons, hc, hrec.2]

/-- Unfolding of `parseNumV` behind a minus sign. -/
theorem parseNumV_minus (rest : List Char) :
    parseNumV ('-' :: rest) =
      (if (rest.takeWhile isDigitC).isEmpty then none
       else some (.int (-(decVal (rest.takeWhile isDigitC) : Int)),
         rest.dropWhile isDigitC)) := by
  simp [parseNumV]

/-- Unfolding of `parseNumV` at a leading digit. -/
theorem parseNumV_plain (c : Char) (rest : List Char) (h : c ≠ '-') :
    parseNumV (c :: rest) =
      (if ((c :: rest).takeWhile isDigitC).isEmpty then none
       else some (.int (decVal ((c :: rest).takeWhile isDigitC)),
         (c :: rest).dropWhile isDigitC)) := by
  simp [parseNumV, h]

/-- The number codec round-trip: `parseNumV` inverts `intChars` whenever
the remainder cannot extend the digits. -/
theorem parseNumV_intChars (n : Int) (rest : List Char) (hrest : dokRest rest = true) :
    parseNumV (intChars n ++ rest) = some (.int n, rest) := by
  rw [intChars]
  by_cases hn : n < 0
  · rw [if_pos hn]
    obtain ⟨htake, hdrop⟩ :=
      takeWhile_digits_append (decChars n.natAbs) rest (decChars_digits _) hrest
    rw [List.cons_append, parseNumV_minus, htake, hdrop]
    rw [if_neg (by simp [decChars_ne_nil]), decVal_decChars]
    rw [show -((n.natAbs : Nat) : Int) = n from by omega]
  · rw [if_neg hn]
    cases hd : decChars n.toNat with
    | nil => exact absurd hd (decChars_ne_nil _)
    | cons c t =>
      have hc : isDigitC c = true := decChars_digits _ c (hd ▸ List.mem_cons_self _ _)
      obtain ⟨_, _, _, _, h5, _⟩ := digit_no_special c hc
      obtain ⟨htake, hdrop⟩ := takeWhile_digits_append (c :: t) rest
        (fun x hx => decChars_digits _ x (hd ▸ hx)) hrest
      rw [List.cons_append, parseNumV_plain c (t ++ rest) h5]
      rw [show c :: (t ++ rest) = (c :: t) ++ rest from rfl, htake, hdrop]
      rw [if_neg (by simp)]
      rw [show decVal (c :: t) = n.toNat from by rw [← hd, decVal_decChars]]
      rw [show ((n.toNat : Nat) : Int) = n from by omega]

theorem concatO_nil_right : ∀ o : PyObj, concatO o .nil = o
  | .nil => rfl
  | .cons k v tl => by rw [concatO, concatO_nil_right tl]

theorem concatO_appendO : ∀ (acc : PyObj) (k : String) (v : PyVal) (tl : PyObj),
    concatO (appendO acc k v) tl = concatO acc (.cons k v tl)
  | .nil, k, v, tl => rfl
  | .cons k0 v0 acc2, k, v, tl => by
    rw [appendO, concatO, concatO_appendO acc2 k v tl, concatO]

theorem hasKeyO_appendO : ∀ (acc : PyObj) (k : String) (v : PyVal) (k2 : String),
    hasKeyO (appendO acc k v) k2 = (hasKeyO acc k2 || k == k2)
  | .nil, k, v, k2 => by simp [appendO, hasKeyO]
  | .cons k0 v0 acc2, k, v, k2 => by
    rw [appendO, hasKeyO, hasKeyO_appendO acc2 k v k2, hasKeyO, Bool.or_assoc]

/-- Building a dict from members with pairwise fresh keys is plain
appending: no earlier entry is ever replaced. -/
theorem dedupObjAux_fresh : ∀ (o acc : PyObj), freshKeys o = true →
    (∀ k2, hasKeyO o k2 = true → hasKeyO acc k2 = false) →
    dedupObjAux acc o = concatO acc o
  | .nil, acc, _, _ => by rw [dedupObjAux, concatO_nil_right]
  | .cons k v tl, acc, hfresh, hdisj => by
    rw [freshKeys, Bool.and_eq_true, Bool.not_eq_true'] at hfresh
    obtain ⟨hknot, hfresh2⟩ := hfresh
    have hkacc : hasKeyO acc k = false := hdisj k (by rw [hasKeyO]; simp)
    rw [dedupObjAux, upsertO, if_neg (by rw [hkacc]; exact Bool.false_ne_true)]
    rw [dedupObjAux_fresh tl (appendO acc k v) hfresh2 ?_, concatO_appendO]
    intro k2 hk2
    rw [hasKeyO_appendO]
    have hacc2 : hasKeyO acc k2 = false := hdisj k2 (by rw [hasKeyO, hk2]; simp)
    rw [hacc2]
    simp only [Bool.false_or]
    by_cases hkk : k = k2
    · subst hkk
      rw [hk2] at hknot
      exact Bool.noConfusion hknot
    · simp [hkk]

/-- The `json.loads` object construction is the identity on fresh-keyed
member lists. -/
theorem dedupObj_of_fresh (o : PyObj) (h : freshKeys o = true) : dedupObj o = o := by
  rw [dedupObj, dedupObjAux_fresh o .nil h (fun k2 _ => rfl)]
  rfl

theorem nodesV_pos : ∀ v : PyVal, 1 ≤ nodesV v := by
  intro v
  cases v <;> simp [nodesV]

theorem intChars_length_pos (n : Int) : 1 ≤ (intChars n).length := by
  rw [intChars]
  by_cases hn : n < 0
  · rw [if_pos hn]
    simp
  · rw [if_neg hn]
    cases hd : decChars n.toNat with
    | nil => exact absurd hd (decChars_ne_nil _)
    | cons c t => simp

mutual
theorem nodesV_le_len : ∀ v : PyVal, nodesV v ≤ (dumpsV v).length
  | .none => by simp [nodesV, dumpsV]
  | .bool b => by cases b <;> simp [nodesV, dumpsV]
  | .int n => by
    have := intChars_length_pos n
    simp only [nodesV, dumpsV]
    omega
  | .str s => by simp [nodesV, dumpsV]
  | .arr .nil => by simp [nodesV, nodesL, dumpsV]
  | .arr (.cons v tl) => by
    have h1 := nodesV_le_len v
    have h2 := nodesL_le_len tl
    simp only [nodesV, nodesL, dumpsV, List.length_cons, List.length_append,
      List.length_singleton]
    omega
  | .obj .nil => by simp [nodesV, nodesO, dumpsV]
  | .obj (.cons k v tl) => by
    have h1 := nodesV_le_len v
    have h2 := nodesO_le_len tl
    simp only [nodesV, nodesO, dumpsV, List.length_cons, List.length_append,
      List.length_singleton]
    omega
theorem nodesL_le_len : ∀ l : PyList, nodesL l ≤ (dumpsElems l).length
  | .nil => by simp [nodesL, dumpsElems]
  | .cons v tl => by
    have h1 := nodesV_le_len v
    have h2 := nodesL_le_len tl
    simp only [nodesL, dumpsElems, List.length_cons, List.length_append]
    omega
theorem nodesO_le_len : ∀ o : PyObj, nodesO o ≤ (dumpsMembers o).length
  | .nil => by simp [nodesO, dumpsMembers]
  | .cons k v tl => by
    have h1 := nodesV_le_len v
    have h2 := nodesO_le_len tl
    simp only [nodesO, dumpsMembers, List.length_cons, List.length_append]
    omega
end

/-- The combined codec round-trip, by induction on the parser fuel:
with enough fuel the parser inverts the printer on well-formed values,
for values, element lists, and member lists alike. -/
theorem parse_dumps_all : ∀ f : Nat,
    (∀ (v : PyVal) (rest : List Char), wfV v = true → dokRest rest = true →
      nodesV v ≤ f → parseV f (dumpsV v ++ rest) = some (v, rest)) ∧
    (∀ (v : PyVal) (tl : PyList) (rest : List Char), wfV v = true → wfL tl = true →
      nodesL (.cons v tl) ≤ f →
      parseElemsV f (dumpsV v ++ (dumpsElems tl ++ ']' :: rest)) =
        some (.cons v tl, rest)) ∧
    (∀ (k : String) (v : PyVal) (tl : PyObj) (rest : List Char), wfV v = true →
      wfO tl = true → nodesO (.cons k v tl) ≤ f →
      parseMembersV f (keyPart k ++ (dumpsV v ++ (dumpsMembers tl ++ rbrace :: rest))) =
        some (.cons k v tl, rest)) := by
  intro f
  induction f with
  | zero =>
    refine ⟨?_, ?_, ?_⟩
    · intro v rest _ _ hn
      have := nodesV_pos v
      omega
    · intro v tl rest _ _ hn
      simp only [nodesL] at hn
      have := nodesV_pos v
      omega
    · intro k v tl rest _ _ hn
      simp only [nodesO] at hn
      have := nodesV_pos v
      omega
  | succ f ih =>
    obtain ⟨ihV, ihL, ihO⟩ := ih
    refine ⟨?_, ?_, ?_⟩
    · intro v rest hwf hdok hn
      cases v with
      | none => rfl
      | bool b => cases b <;> rfl
      | int n =>
        obtain ⟨c, t, hct, hnum, hws, hq, hbk, hbr⟩ := intChars_head n
        rw [show dumpsV (.int n) = intChars n from rfl, hct, List.cons_append]
        simp only [parseV, skipWs_cons_of_not_ws _ _ hws]
        rw [if_neg hq, if_neg hbk, if_neg hbr, if_pos hnum]
        rw [← List.cons_append, ← hct]
        exact parseNumV_intChars n rest hdok
      | str s2 =>
        rw [show dumpsV (.str s2) ++ rest =
          '"' :: (escStr s2.data ++ ('"' :: rest)) from by simp [dumpsV]]
        simp only [parseV, skipWs_cons_of_not_ws '"' _ (by decide)]
        simp only [eq_self_iff_true, if_true]
        rw [strBody_escStr]
        rfl
      | arr l =>
        cases l with
        | nil => rfl
        | cons v2 tl =>
          simp only [wfV, wfL, Bool.and_eq_true] at hwf
          simp only [nodesV, nodesL] at hn
          rw [show dumpsV (.arr (.cons v2 tl)) ++ rest =
            '[' :: (dumpsV v2 ++ (dumpsElems tl ++ (']' :: rest))) from by
              simp [dumpsV]]
          simp only [parseV, skipWs_cons_of_not_ws '[' _ (by decide)]
          rw [if_neg (by decide)]
          simp only [eq_self_iff_true, if_true]
          obtain ⟨c, t, hct, hws, hnr⟩ := dumpsV_head v2
          rw [hct, List.cons_append]
          simp only [skipWs_cons_of_not_ws _ _ hws]
          rw [if_neg hnr]
          rw [← List.cons_append, ← hct]
          rw [ihL v2 tl rest hwf.1 hwf.2 (by simp only [nodesL]; omega)]
          rfl
      | obj o =>
        cases o with
        | nil => rfl
        | cons k v2 tl =>
          simp only [wfV, wfO, freshKeys, Bool.and_eq_true] at hwf
          obtain ⟨⟨hknot, hfresh⟩, hwfv2, hwftl⟩ := hwf
          simp only [nodesV, nodesO] at hn
          rw [show dumpsV (.obj (.cons k v2 tl)) ++ rest =
            lbrace :: (keyPart k ++ (dumpsV v2 ++ (dumpsMembers tl ++ (rbrace :: rest)))) from by
              simp [dumpsV]]
          simp only [parseV, skipWs_cons_of_not_ws lbrace _ (by decide)]
          rw [if_neg (by decide), if_neg (by decide)]
          simp only [eq_self_iff_true, if_true]
          rw [show keyPart k ++ (dumpsV v2 ++ (dumpsMembers tl ++ (rbrace :: rest))) =
            '"' :: (escStr k.data ++ (['"', ':', ' '] ++
              (dumpsV v2 ++ (dumpsMembers tl ++ (rbrace :: rest))))) from by
              simp [keyPart]]
          simp only [skipWs_cons_of_not_ws '"' _ (by decide)]
          rw [if_neg (by decide)]
          rw [show ('"' : Char) :: (escStr k.data ++ (['"', ':', ' '] ++
              (dumpsV v2 ++ (dumpsMembers tl ++ (rbrace :: rest))))) =
            keyPart k ++ (dumpsV v2 ++ (dumpsMembers tl ++ rbrace :: rest)) from by
              simp [keyPart]]
          rw [ihO k v2 tl rest hwfv2 hwftl (by simp only [nodesO]; omega)]
          have hded : dedupObj (.cons k v2 tl) = .cons k v2 tl :=
            dedupObj_of_fresh _ (by
              rw [freshKeys, hknot, hfresh]
              rfl)
          simp [hded]
    · intro v tl rest hwfv hwftl hn
      simp only [nodesL] at hn
      simp only [parseElemsV]
      rw [ihV v (dumpsElems tl ++ ']' :: rest) hwfv (dok_elems tl rest) (by omega)]
      simp only [Option.bind_eq_bind, Option.some_bind]
      cases tl with
      | nil =>
        simp only [dumpsElems, List.nil_append]
        simp only [skipWs_cons_of_not_ws ']' _ (by decide : isWsC ']' = false)]
        rw [if_neg (by decide)]
        simp only [eq_self_iff_true, if_true]
        rfl
      | cons v2 tl2 =>
        simp only [wfL, Bool.and_eq_true] at hwftl
        simp only [dumpsElems, List.cons_append, List.append_assoc]
        simp only [skipWs_cons_of_not_ws ',' _ (by decide : isWsC ',' = false)]
        simp only [eq_self_iff_true, if_true]
        rw [parseElemsV_sp]
        rw [ihL v2 tl2 rest hwftl.1 hwftl.2 (by simp only [nodesL] at hn ⊢; omega)]
        rfl
    · intro k v tl rest hwfv hwftl hn
      simp only [nodesO] at hn
      rw [show keyPart k ++ (dumpsV v ++ (dumpsMembers tl ++ rbrace :: rest)) =
        '"' :: (escStr k.data ++ ('"' :: (':' :: ' ' ::
          (dumpsV v ++ (dumpsMembers tl ++ rbrace :: rest))))) from by
          simp [keyPart]]
      simp only [parseMembersV, skipWs_cons_of_not_ws '"' _ (by decide : isWsC '"' = false)]
      simp only [eq_self_iff_true, if_true]
      rw [strBody_escStr]
      simp only [Option.bind_eq_bind, Option.some_bind]
      simp only [skipWs_cons_of_not_ws ':' _ (by decide : isWsC ':' = false)]
      simp only [eq_self_iff_true, if_true]
      rw [parseV_sp]
      rw [ihV v (dumpsMembers tl ++ rbrace :: rest) hwfv (dok_members tl rest) (by omega)]
      simp only [Option.bind_eq_bind, Option.some_bind]
      cases tl with
      | nil =>
        simp only [dumpsMembers, List.nil_append]
        simp only [skipWs_cons_of_not_ws rbrace _ (by decide : isWsC rbrace = false)]
        rw [if_neg (by decide)]
        simp only [eq_self_iff_true, if_true]
        rw [show String.mk k.data = k from rfl]
        rfl
      | cons k2 v2 tl2 =>
        simp only [wfO, Bool.and_eq_true] at hwftl
        simp only [dumpsMembers, List.cons_append, List.append_assoc]
        simp only [skipWs_cons_of_not_ws ',' _ (by decide : isWsC ',' = false)]
        simp only [eq_self_iff_true, if_true]
        rw [parseMembersV_sp]
        rw [ihO k2 v2 tl2 rest hwftl.1 hwftl.2 (by simp only [nodesO] at hn ⊢; omega)]
        rw [show String.mk k.data = k from rfl]
        rfl

/-- The full codec round-trip: `json.loads` inverts `json.dumps` on any
well-formed value. -/
theorem loadsChars_dumpsV (v : PyVal) (h : wfV v = true) :
    loadsChars (dumpsV v) = some v := by
  rw [loadsChars]
  have hfuel : nodesV v ≤ (dumpsV v).length + 1 :=
    le_trans (nodesV_le_len v) (by omega)
  have hparse := (parse_dumps_all ((dumpsV v).length + 1)).1 v [] h rfl hfuel
  rw [List.append_nil] at hparse
  rw [hparse]
  rfl

theorem pyStrip_of_ends (c d : Char) (mid : List Char)
    (hc : isWsC c = false) (hd : isWsC d = false) :
    pyStrip (c :: (mid ++ [d])) = c :: (mid ++ [d]) := by
  rw [pyStrip, List.dropWhile_cons, if_neg (by simp [hc])]
  have h1 : (c :: (mid ++ [d])).reverse = d :: (mid.reverse ++ [c]) := by
    simp
  rw [h1, List.dropWhile_cons, if_neg (by simp [hd])]
  rw [← h1, List.reverse_reverse]

/-- A dumped object line: first and last characters are the braces. -/
theorem dumpsV_obj_shape (o : PyObj) :
    ∃ mid, dumpsV (.obj o) = lbrace :: (mid ++ [rbrace]) := by
  cases o with
  | nil => exact ⟨[], rfl⟩
  | cons k v tl =>
    refine ⟨keyPart k ++ dumpsV v ++ dumpsMembers tl, ?_⟩
    simp [dumpsV]

theorem pyStrip_dumps_obj (o : PyObj) :
    pyStrip (dumpsV (.obj o)) = dumpsV (.obj o) := by
  obtain ⟨mid, hm⟩ := dumpsV_obj_shape o
  rw [hm]
  exact pyStrip_of_ends lbrace rbrace mid (by decide) (by decide)

/-- The writer's row object always has the twelve distinct unified keys. -/
theorem freshKeys_rowObj (ev : Batch.Ev) : freshKeys (Batch.rowObj ev) = true := rfl

theorem wfV_rowObj (ev : Batch.Ev) (h : Batch.wfEv ev = true) :
    wfV (.obj (Batch.rowObj ev)) = true := by
  simp only [Batch.wfEv, Bool.and_eq_true] at h
  simp only [wfV, freshKeys_rowObj, Batch.rowObj, wfO, Bool.and_eq_true, Bool.true_and]
  tauto

/-- Function `ensure_row` on a freshly parsed writer row is exactly the expected
field transform of the in-memory record. -/
theorem ensure_row_rowObj (ev : Batch.Ev) :
    Csv.ensure_row (Batch.rowObj ev) = Batch.specRow ev := by
  have hs : ∀ v : PyVal,
      (match (match v with | PyVal.none => PyVal.none | w => PyVal.str (dumps w)) with
        | PyVal.none => PyVal.str "" | w2 => w2) = Batch.csvField true v := by
    intro v
    cases v <;> rfl
  have hp : ∀ v : PyVal,
      (match v with | PyVal.none => PyVal.str "" | w => w) = Batch.csvField false v := by
    intro v
    cases v <;> rfl
  simp only [Csv.ensure_row, UNIFIED_KEYS, List.map_cons, List.map_nil, Batch.rowObj,
    PyObj.get, Csv.stringifyField, Batch.specRow]
  norm_num
  exact ⟨hp ev.ts, hp ev.user_id, hp ev.username, hp ev.task, hp ev.event, hp ev.code,
    hp ev.stdout, hp ev.stderr, hp ev.estimated_stage, hp ev.next_stage,
    hs ev.processing_structure, hs ev.advice⟩

/-- The exporter's read loop undoes the writer line by line. -/
theorem iter_jsonl_jsonlLines (bucket : List Batch.Ev)
    (h : ∀ ev ∈ bucket, Batch.wfEv ev = true) :
    Csv.iter_jsonl (Batch.jsonlLines bucket) = .ok (bucket.map Batch.rowObj) := by
  induction bucket with
  | nil => rfl
  | cons ev rest ih =>
    have hwfobj : wfV (.obj (Batch.rowObj ev)) = true := wfV_rowObj ev (h ev (by simp))
    have hdata : (dumps (.obj (Batch.rowObj ev))).data = dumpsV (.obj (Batch.rowObj ev)) := rfl
    rw [Batch.jsonlLines, List.map_cons, Csv.iter_jsonl, hdata, pyStrip_dumps_obj]
    obtain ⟨mid, hm⟩ := dumpsV_obj_shape (Batch.rowObj ev)
    rw [if_neg (by rw [hm]; simp)]
    rw [loadsChars_dumpsV _ hwfobj]
    rw [show Batch.jsonlLines rest = rest.map (fun ev => dumps (.obj (Batch.rowObj ev))) from rfl] at ih
    rw [ih (fun e he => h e (by simp [he]))]
    rfl

/-! ## Claim theorems -/

/-- C5: `pad_user_id` is idempotent — applying it to an already-canonical
id returns the same string — and `"user_7"`, `"user_007"`, `"7"` and
`"007"` all normalize to `"user_007"`. -/
theorem C5_pad_user_id_idempotent (s : String) :
    pad_user_id (pad_user_id s) = pad_user_id s ∧
    pad_user_id "user_7" = "user_007" ∧ pad_user_id "user_007" = "user_007" ∧
    pad_user_id "7" = "user_007" ∧ pad_user_id "007" = "user_007" :=
  ⟨pad_user_id_idem s, by rfl, by rfl, by rfl, by rfl⟩

/-- C3: in sort mode the spec's own stability bucket — timestamps
`["2024-01-02T00:00:00Z", None, "2024-01-01T00:00:00Z"]` — does not get
ordered at all: the missing timestamp falls back to the naive
`datetime.min` while the parsed `Z` timestamps are offset-aware, and the
sort raises `TypeError` at its first key comparison. -/
theorem C3_sort_mode_raises :
    Batch.sortEventsByTs Batch.c3bucket = .error .typeError ∧
    Batch.sortKey (Batch.tsOnly .none) = dtMin ∧ dtMin.off = none ∧
    (Batch.sortKey (Batch.tsOnly (.str "2024-01-02T00:00:00Z"))).off = some 0 :=
  ⟨by rfl, by rfl, by rfl, by rfl⟩

/-- C4: a raw record with no discoverable user id (neither in its fields
nor in the source path) or no resolvable task number is dropped during
partitioning: it reaches no bucket and no output file. -/
theorem C4_unresolved_identity_dropped
    (files : List (String × List PyObj)) (p : String) (raws : List PyObj) (raw : PyObj)
    (hmem : (p, raws) ∈ files) (hraw : raw ∈ raws)
    (hdrop : ¬ Batch.userDiscoverable raw p ∨ ¬ Batch.taskResolvable raw p) :
    Batch.normalize_event raw (Batch.discover_user_task_from_path p).1
        (Batch.discover_user_task_from_path p).2 ∉ Batch.keptEvents files ∧
    Batch.normalize_event raw (Batch.discover_user_task_from_path p).1
        (Batch.discover_user_task_from_path p).2 ∉ Batch.writtenEvents files := by
  have hkeep := Batch.keep_false_of_unresolved raw p hdrop
  have hnk : Batch.normalize_event raw (Batch.discover_user_task_from_path p).1
      (Batch.discover_user_task_from_path p).2 ∉ Batch.keptEvents files := by
    intro hmemk
    have := Batch.keep_of_mem_keptEvents files _ hmemk
    rw [hkeep] at this
    exact Bool.false_ne_true this
  exact ⟨hnk, fun hmemw => hnk (Batch.mem_keptEvents_of_mem_writtenEvents files _ hmemw)⟩

theorem C4_unresolved_identity_dropped_witness :
    ("log/user_001/run.json", [c4raw]) ∈ c4files ∧ c4raw ∈ [c4raw] ∧
    (¬ Batch.userDiscoverable c4raw "log/user_001/run.json" ∨
      ¬ Batch.taskResolvable c4raw "log/user_001/run.json") ∧
    (Batch.normalize_event c4raw
        (Batch.discover_user_task_from_path "log/user_001/run.json").1
        (Batch.discover_user_task_from_path "log/user_001/run.json").2 ∉
      Batch.keptEvents c4files ∧
     Batch.normalize_event c4raw
        (Batch.discover_user_task_from_path "log/user_001/run.json").1
        (Batch.discover_user_task_from_path "log/user_001/run.json").2 ∉
      Batch.writtenEvents c4files) :=
  have hdrop : ¬ Batch.userDiscoverable c4raw "log/user_001/run.json" ∨
      ¬ Batch.taskResolvable c4raw "log/user_001/run.json" :=
    Or.inr (fun h => h.elim (fun h1 => h1 rfl) (fun h2 => h2 rfl))
  ⟨List.mem_singleton.mpr rfl, List.mem_singleton.mpr rfl, hdrop,
    C4_unresolved_identity_dropped c4files "log/user_001/run.json" [c4raw] c4raw
      (List.mem_singleton.mpr rfl) (List.mem_singleton.mpr rfl) hdrop⟩

/-- C9 counterexample: the claim promises that a record whose `user`
field is a non-empty digit-free string is never dropped, yet with no
resolvable task number the partitioner keeps nothing of this record —
the kept stream (hence every bucket) is empty. -/
theorem C9_counterexample :
    c9raw.get "user" = PyVal.str "nouser" ∧ Batch.keptEvents c9files = [] :=
  ⟨rfl, rfl⟩

theorem orP_truthy (a b : PyVal) (h : pyTruthy a = true) : orP a b = a := by
  rw [orP, if_pos h]

/-- A resolvable task normalizes to an integer `task` field. -/
theorem normalize_task_int_of_resolvable (raw : PyObj) (p : String) (fbU : Option String)
    (h : Batch.taskResolvable raw p) :
    ∃ n, (Batch.normalize_event raw fbU
      (Batch.discover_user_task_from_path p).2).task = PyVal.int n := by
  rw [Batch.normalize_event_task]
  cases hcase : to_int_or_none (Batch.fieldTask raw) with
  | some n => exact ⟨n, rfl⟩
  | none =>
    rcases h with h | h
    · exact absurd hcase h
    · rcases Option.ne_none_iff_exists'.mp h with ⟨n, hn⟩
      rw [hn]
      exact ⟨n, rfl⟩

/-- C9 (amended): every digit-free string (the empty string included)
normalizes to `user_000`; consequently a record whose only user identity
is a non-empty digit-free `user` field — and whose task number is
resolvable, which the original claim left unstated — is kept by the
partitioner, with `user_id` equal to `user_000`. -/
theorem C9_digitfree_user_kept_as_user_000
    (s : String) (files : List (String × List PyObj)) (p : String)
    (raws : List PyObj) (raw : PyObj)
    (hdf : ∀ c ∈ s.data, isDigitC c = false)
    (hmem : (p, raws) ∈ files) (hraw : raw ∈ raws)
    (h1 : raw.get "userId" = PyVal.none) (h2 : raw.get "user_id" = PyVal.none)
    (h3 : raw.get "user" = PyVal.str s)
    (htask : Batch.taskResolvable raw p) :
    pad_user_id s = "user_000" ∧
    (s ≠ "" →
      Batch.normalize_event raw (Batch.discover_user_task_from_path p).1
          (Batch.discover_user_task_from_path p).2 ∈ Batch.keptEvents files ∧
      (Batch.normalize_event raw (Batch.discover_user_task_from_path p).1
          (Batch.discover_user_task_from_path p).2).user_id = PyVal.str "user_000") := by
  have hpad : pad_user_id s = "user_000" := pad_user_id_no_digits s hdf
  refine ⟨hpad, fun hne => ?_⟩
  have hstr : pyTruthy (PyVal.str s) = true := by
    rw [pyTruthy]
    simp [hne]
  have huid : (Batch.normalize_event raw (Batch.discover_user_task_from_path p).1
      (Batch.discover_user_task_from_path p).2).user_id = PyVal.str "user_000" := by
    rw [Batch.normalize_event_user_id, h1, h2, h3]
    rw [orP_truthy _ _ hstr, orP_falsy _ _ (by rfl), orP_falsy _ _ (by rfl)]
    show PyVal.str (pad_user_id_py (PyVal.str s)) = PyVal.str "user_000"
    have hps : pad_user_id_py (PyVal.str s) = pad_user_id s := by
      simp [pad_user_id_py, pyStr]
    rw [hps, hpad]
  obtain ⟨n, htaskn⟩ := normalize_task_int_of_resolvable raw p
    (Batch.discover_user_task_from_path p).1 htask
  have hkeep : Batch.keep (Batch.normalize_event raw
      (Batch.discover_user_task_from_path p).1
      (Batch.discover_user_task_from_path p).2) = true := by
    rw [Batch.keep, huid, htaskn]
    rfl
  exact ⟨Batch.mem_keptEvents_intro files p raws raw hmem hraw hkeep, huid⟩

theorem C9_digitfree_user_kept_as_user_000_witness :
    (∀ c ∈ "nouser".data, isDigitC c = false) ∧
    ("data.json", [c9wraw]) ∈ c9wfiles ∧ c9wraw ∈ [c9wraw] ∧
    c9wraw.get "userId" = PyVal.none ∧ c9wraw.get "user_id" = PyVal.none ∧
    c9wraw.get "user" = PyVal.str "nouser" ∧
    Batch.taskResolvable c9wraw "data.json" ∧
    (pad_user_id "nouser" = "user_000" ∧
     ("nouser" ≠ "" →
      Batch.normalize_event c9wraw
          (Batch.discover_user_task_from_path "data.json").1
          (Batch.discover_user_task_from_path "data.json").2 ∈
        Batch.keptEvents c9wfiles ∧
      (Batch.normalize_event c9wraw
          (Batch.discover_user_task_from_path "data.json").1
          (Batch.discover_user_task_from_path "data.json").2).user_id =
        PyVal.str "user_000")) :=
  have htask : Batch.taskResolvable c9wraw "data.json" :=
    Or.inl (by decide)
  ⟨by decide, List.mem_singleton.mpr rfl, List.mem_singleton.mpr rfl,
    rfl, rfl, rfl, htask,
    C9_digitfree_user_kept_as_user_000 "nouser" c9wfiles "data.json" [c9wraw] c9wraw
      (by decide) (List.mem_singleton.mpr rfl) (List.mem_singleton.mpr rfl)
      rfl rfl rfl htask⟩

namespace Api

/-- The line loop of `read_jsonl_events`, characterized: on success the
events number consecutively from the starting index and count exactly
the parsable nonblank lines. -/
theorem readLines_spec : ∀ (lines : List String) (idx : Nat) (evs : List ApiEv),
    readLines lines idx = .ok evs →
    evs.map ApiEv.idx = List.range' idx evs.length ∧
    evs.length = lines.countP okLine := by
  intro lines
  induction lines with
  | nil =>
    intro idx evs h
    rw [readLines] at h
    cases h
    exact ⟨rfl, rfl⟩
  | cons l rest ih =>
    intro idx evs h
    rw [readLines] at h
    by_cases hblank : (pyStrip l.data).isEmpty
    · rw [if_pos hblank] at h
      have hok : okLine l = false := by
        rw [okLine, hblank]
        rfl
      have := ih idx evs h
      rw [List.countP_cons, hok]
      exact ⟨this.1, by simp [this.2]⟩
    · rw [if_neg hblank] at h
      cases hload : loadsChars (pyStrip l.data) with
      | none =>
        rw [hload] at h
        have hok : okLine l = false := by
          rw [okLine, hload]
          simp
        have := ih idx evs h
        rw [List.countP_cons, hok]
        exact ⟨this.1, by simp [this.2]⟩
      | some v =>
        rw [hload] at h
        have hok : okLine l = true := by
          rw [okLine, hload]
          simp [hblank]
        cases v with
        | obj o =>
          cases hrest : readLines rest (idx + 1) with
          | error e =>
            rw [hrest] at h
            cases h
          | ok tl =>
            rw [hrest] at h
            simp only [bind, Except.bind, pure, Except.pure] at h
            cases h
            obtain ⟨hmap, hcount⟩ := ih (idx + 1) tl hrest
            constructor
            · rw [List.map_cons, hmap]
              rfl
            · rw [List.countP_cons, hok, List.length_cons, hcount]
              simp
        | none => cases h
        | bool b => cases h
        | int n => cases h
        | str s2 => cases h
        | arr a => cases h

/-- Successful reads carry consecutive indices from zero. -/
theorem read_jsonl_events_idx (file : Option (List String)) (evs : List ApiEv)
    (h : read_jsonl_events file = .ok evs) :
    evs.map ApiEv.idx = List.range evs.length := by
  cases file with
  | none =>
    rw [read_jsonl_events] at h
    cases h
    rfl
  | some lines =>
    rw [read_jsonl_events] at h
    rw [List.range_eq_range']
    exact (readLines_spec lines 0 evs h).1

end Api

namespace Api

/-- A line that fails to parse is invisible to the reader: deleting it
changes nothing about the outcome, error or not. -/
theorem readLines_drop_bad (bad : String)
    (hbad : loadsChars (pyStrip bad.data) = none) :
    ∀ (l1 l2 : List String) (idx : Nat),
    readLines (l1 ++ bad :: l2) idx = readLines (l1 ++ l2) idx := by
  intro l1
  induction l1 with
  | nil =>
    intro l2 idx
    simp only [List.nil_append, readLines]
    by_cases hblank : (pyStrip bad.data).isEmpty
    · rw [if_pos hblank]
    · rw [if_neg hblank, hbad]
  | cons l rest ih =>
    intro l2 idx
    simp only [List.cons_append, readLines, List.append_eq]
    by_cases hblank : (pyStrip l.data).isEmpty
    · rw [if_pos hblank, if_pos hblank, ih]
    · rw [if_neg hblank, if_neg hblank]
      cases hload : loadsChars (pyStrip l.data) with
      | none => exact ih l2 idx
      | some v =>
        cases v with
        | obj o => rw [ih l2 (idx + 1)]
        | none => rfl
        | bool b => rfl
        | int n => rfl
        | str s2 => rfl
        | arr a => rfl

end Api

/-- C6: any line that fails to parse as JSON is skipped silently — it can
even be deleted from the file without changing the response at all (so it
cannot fail the request) — and a request that returns carries exactly one
event per parsable nonblank line, indexed consecutively from zero over
those lines only. -/
theorem C6_bad_lines_skipped (lines l1 l2 : List String) (bad : String)
    (evs : List Api.ApiEv)
    (h : Api.read_jsonl_events (some lines) = .ok evs)
    (hbad : loadsChars (pyStrip bad.data) = none) :
    evs.length = lines.countP Api.okLine ∧
    evs.map Api.ApiEv.idx = List.range evs.length ∧
    Api.read_jsonl_events (some (l1 ++ bad :: l2)) =
      Api.read_jsonl_events (some (l1 ++ l2)) :=
  ⟨(Api.readLines_spec lines 0 evs h).2, Api.read_jsonl_events_idx _ evs h,
    Api.readLines_drop_bad bad hbad l1 l2 0⟩

theorem C6_bad_lines_skipped_witness :
    Api.read_jsonl_events (some c6lines) = .ok c6evs ∧
    loadsChars (pyStrip "oops \x7b".data) = none ∧
    (c6evs.length = c6lines.countP Api.okLine ∧
     c6evs.map Api.ApiEv.idx = List.range c6evs.length ∧
     Api.read_jsonl_events (some (["\x7b\"event\": \"run\"\x7d"] ++ "oops \x7b" ::
         ["\x7b\"event\": \"save\"\x7d"])) =
       Api.read_jsonl_events (some (["\x7b\"event\": \"run\"\x7d"] ++
         ["\x7b\"event\": \"save\"\x7d"]))) :=
  ⟨rfl, rfl, C6_bad_lines_skipped c6lines ["\x7b\"event\": \"run\"\x7d"]
    ["\x7b\"event\": \"save\"\x7d"] "oops \x7b" c6evs rfl rfl⟩

/-- C10: every successful events response satisfies
`count = len(events)`, and the `idx` fields are exactly `0..count-1` in
order. -/
theorem C10_count_and_indices (fs : Api.FS) (user : String) (task : Int)
    (resp : Api.EventsResp) (h : Api.events fs user task = .ok resp) :
    resp.count = resp.events.length ∧
    resp.events.map Api.ApiEv.idx = List.range resp.count := by
  rw [Api.events] at h
  by_cases hroot : fs.rootExists
  · rw [if_neg (by simp [hroot])] at h
    by_cases hdir : fs.dirs.contains user
    · rw [if_neg (by rw [hdir]; decide)] at h
      cases hread : Api.read_jsonl_events (fs.file user (Api.taskFilename user task)) with
      | error e =>
        rw [hread] at h
        cases h
      | ok evs =>
        rw [hread] at h
        cases h
        exact ⟨rfl, Api.read_jsonl_events_idx _ evs hread⟩
    · rw [Bool.not_eq_true] at hdir
      rw [if_pos (by rw [hdir]; decide)] at h
      cases h
  · rw [if_pos (by simp [hroot])] at h
    cases h

theorem C10_count_and_indices_witness :
    Api.events c6fs "user_005" 2 = .ok ⟨"user_005", 2, 2, c6evs⟩ ∧
    ((Api.EventsResp.mk "user_005" 2 2 c6evs).count =
        (Api.EventsResp.mk "user_005" 2 2 c6evs).events.length ∧
     (Api.EventsResp.mk "user_005" 2 2 c6evs).events.map Api.ApiEv.idx =
        List.range (Api.EventsResp.mk "user_005" 2 2 c6evs).count) :=
  ⟨rfl, C10_count_and_indices c6fs "user_005" 2 ⟨"user_005", 2, 2, c6evs⟩ rfl⟩

/-- C8: with the corpus root present, a request for a missing user
directory is a 404 error, while an existing user directory with a
missing task file yields an empty, zero-count event list. -/
theorem C8_missing_dir_vs_missing_file (fs : Api.FS) (user : String) (task : Int)
    (hroot : fs.rootExists = true)
    (hfile : fs.file user (Api.taskFilename user task) = none) :
    Api.events fs user task =
      if fs.dirs.contains user then .ok ⟨user, task, 0, []⟩
      else .error (.http 404) := by
  rw [Api.events, hroot]
  by_cases hdir : fs.dirs.contains user
  · rw [if_neg (by simp), if_neg (by rw [hdir]; decide), hfile, if_pos hdir]
    rfl
  · rw [Bool.not_eq_true] at hdir
    rw [if_neg (by simp), if_pos (by rw [hdir]; decide),
      if_neg (by rw [hdir]; decide)]

theorem C8_missing_dir_vs_missing_file_witness :
    c8fs.rootExists = true ∧
    c8fs.file "user_009" (Api.taskFilename "user_009" 2) = none ∧
    (Api.events c8fs "user_009" 2 =
      if c8fs.dirs.contains "user_009" then .ok ⟨"user_009", 2, 0, []⟩
      else .error (.http 404)) :=
  ⟨rfl, rfl, C8_missing_dir_vs_missing_file c8fs "user_009" 2 rfl rfl⟩

/-- C2 (endpoint modelled from the spec): with the root and the user
directory present, the single-event endpoint returns exactly the
positional element of the event list parsed by `read_jsonl_events` when
`idx` is in range, and a not-found error otherwise. -/
theorem C2_event_by_index (fs : Api.FS) (user : String) (task : Int) (idx : Nat)
    (evs : List Api.ApiEv)
    (hroot : fs.rootExists = true) (huser : fs.dirs.contains user = true)
    (hevs : Api.read_jsonl_events (fs.file user (Api.taskFilename user task)) = .ok evs) :
    Api.eventByIdx fs user task idx =
      if h : idx < evs.length then .ok (evs.get ⟨idx, h⟩)
      else .error (.http 404) := by
  rw [Api.eventByIdx, hroot, huser, hevs]
  rfl

theorem C2_event_by_index_witness :
    c1fs.rootExists = true ∧ c1fs.dirs.contains "user_001" = true ∧
    Api.read_jsonl_events (c1fs.file "user_001" (Api.taskFilename "user_001" 1)) =
      .ok c1evs ∧
    (Api.eventByIdx c1fs "user_001" 1 1 =
      if h : 1 < c1evs.length then .ok (c1evs.get ⟨1, h⟩)
      else .error (.http 404)) :=
  ⟨rfl, rfl, rfl, C2_event_by_index c1fs "user_001" 1 1 c1evs rfl rfl rfl⟩

/-- C1 (endpoint modelled from the spec): the diff endpoint computes the
unified line diff of the `code` texts of the events at `idx-1` and `idx`
(absent codes read as the empty string) and returns empty text when
`idx` is at or before the first position or beyond the last; on the
spec's two-event example (codes `"a\nb"`, `"a\nc"`) `diff/1` keeps `a`
as context, removes `b` and adds `c`, while `diff/0` and `diff/2` are
empty. -/
theorem C1_diff_endpoint (fs : Api.FS) (user : String) (task : Int) (idx : Nat)
    (evs : List Api.ApiEv)
    (hroot : fs.rootExists = true) (huser : fs.dirs.contains user = true)
    (hevs : Api.read_jsonl_events (fs.file user (Api.taskFilename user task)) = .ok evs) :
    Api.diffEndpoint fs user task idx =
      .ok (if idx = 0 ∨ evs.length ≤ idx then ""
           else Api.unifiedDiff (Api.codeText (evs.getD (idx - 1) Api.defEv))
             (Api.codeText (evs.getD idx Api.defEv))) ∧
    Api.diffEndpoint c1fs "user_001" 1 1 = .ok " a\n-b\n+c" ∧
    Api.diffEndpoint c1fs "user_001" 1 0 = .ok "" ∧
    Api.diffEndpoint c1fs "user_001" 1 2 = .ok "" := by
  refine ⟨?_, by rfl, by rfl, by rfl⟩
  rw [Api.diffEndpoint, hroot, huser, hevs]
  show (if idx = 0 ∨ evs.length ≤ idx then (Except.ok "" : Except Api.ApiFail String)
        else .ok (Api.unifiedDiff (Api.codeText (evs.getD (idx - 1) Api.defEv))
          (Api.codeText (evs.getD idx Api.defEv)))) = _
  by_cases hrange : idx = 0 ∨ evs.length ≤ idx
  · rw [if_pos hrange, if_pos hrange]
  · rw [if_neg hrange, if_neg hrange]

theorem C1_diff_endpoint_witness :
    c1fs.rootExists = true ∧ c1fs.dirs.contains "user_001" = true ∧
    Api.read_jsonl_events (c1fs.file "user_001" (Api.taskFilename "user_001" 1)) =
      .ok c1evs ∧
    ((Api.diffEndpoint c1fs "user_001" 1 2 =
      .ok (if 2 = 0 ∨ c1evs.length ≤ 2 then ""
           else Api.unifiedDiff (Api.codeText (c1evs.getD 1 Api.defEv))
             (Api.codeText (c1evs.getD 2 Api.defEv)))) ∧
     Api.diffEndpoint c1fs "user_001" 1 1 = .ok " a\n-b\n+c" ∧
     Api.diffEndpoint c1fs "user_001" 1 0 = .ok "" ∧
     Api.diffEndpoint c1fs "user_001" 1 2 = .ok "") :=
  ⟨rfl, rfl, rfl, C1_diff_endpoint c1fs "user_001" 1 2 c1evs rfl rfl rfl⟩

/-- C7: writing a bucket with the JSONL writer and converting the result
with the tabular exporter reproduces every unified field of every record:
nulls become the empty string and `processing_structure`/`advice` their
compact JSON text, all other values pass through unchanged. -/
theorem C7_write_then_export_roundtrip (bucket : List Batch.Ev)
    (h : ∀ ev ∈ bucket, Batch.wfEv ev = true) :
    Csv.tabularRows (Batch.jsonlLines bucket) = .ok (bucket.map Batch.specRow) := by
  rw [Csv.tabularRows, iter_jsonl_jsonlLines bucket h]
  show Except.ok ((bucket.map Batch.rowObj).map Csv.ensure_row) =
    .ok (bucket.map Batch.specRow)
  rw [List.map_map]
  congr 1
  exact List.map_congr_left (fun ev _ => ensure_row_rowObj ev)

theorem C7_write_then_export_roundtrip_witness :
    (∀ ev ∈ c7bucket, Batch.wfEv ev = true) ∧
    Csv.tabularRows (Batch.jsonlLines c7bucket) = .ok (c7bucket.map Batch.specRow) :=
  ⟨by decide, C7_write_then_export_roundtrip c7bucket (by decide)⟩

end LogTool
